import Mathlib

/-!
Verification development for the core of `squirrel-json`, a reader for
minified, trusted JSON documents whose top-level value is a map.

The definitions below are a shallow embedding of the Rust sources:

* `src/de/mod.rs`      — scanner state, `scan_begin` / `scan_end`, documents;
* `src/de/interest.rs` — the structural-action handlers shared by the
  scalar and vectorized scanners;
* `src/de/fallback.rs` — the byte-at-a-time scalar scan loop;
* `src/de/document.rs` — the document facade (`as_map`, `entries`, …);
* `src/unescape.rs` and `src/std_ext/char.rs` — the string unescaper.

Byte buffers are `List Nat` (each entry a byte value); machine integers
are `Nat` with explicit `% 2 ^ 16` where the Rust code uses wrapping
`u16` arithmetic.  Unchecked reads (`get_unchecked!` and friends) are
modelled with `List.getD`; on the in-bounds executions the scanner
actually performs they agree with the Rust semantics.
-/

set_option maxRecDepth 10000

namespace SquirrelJson

/-- A pair (byte-offset, byte-length) into the input buffer
(`Slice` in `de/mod.rs`). -/
structure Slice where
  offset : Nat
  len : Nat
  deriving Repr, DecidableEq

/-- The tagged kind of an offset record (`OffsetKind` in `de/mod.rs`). -/
inductive OffsetKind where
  | str (s : Slice) (escaped : Bool)
  | num (s : Slice)
  | bool (b : Bool)
  | null
  | map (n : Nat)
  | arr (n : Nat)
  deriving Repr, DecidableEq

/-- The position of an element within its container (`Part` in `de/mod.rs`). -/
inductive Part where
  | none
  | key
  | value
  | elem
  deriving Repr, DecidableEq

/-- A fixed-size offset record (`Offset` in `de/mod.rs`). -/
structure Offset where
  kind : OffsetKind
  position : Part
  next : Option Nat
  deriving Repr, DecidableEq

/-- The table of previous part offsets, one slot per `Part` variant
(`PrevPartOffsets = [Option<u16>; 4]` in `de/mod.rs`). -/
structure PrevPartOffsets where
  atNone : Option Nat
  atKey : Option Nat
  atValue : Option Nat
  atElem : Option Nat
  deriving Repr, DecidableEq

/-- All slots empty (`[None; 4]`). -/
def PrevPartOffsets.empty : PrevPartOffsets :=
  ⟨Option.none, Option.none, Option.none, Option.none⟩

/-- Read the slot indexed by a `Part` (`prev_part_offsets[part as usize]`). -/
def PrevPartOffsets.get (p : PrevPartOffsets) : Part → Option Nat
  | .none => p.atNone
  | .key => p.atKey
  | .value => p.atValue
  | .elem => p.atElem

/-- Write the slot indexed by a `Part`. -/
def PrevPartOffsets.set (p : PrevPartOffsets) : Part → Option Nat → PrevPartOffsets
  | .none, v => { p with atNone := v }
  | .key, v => { p with atKey := v }
  | .value, v => { p with atValue := v }
  | .elem, v => { p with atElem := v }

/-- The kind of multi-byte primitive the scanner is currently inside
(`ActivePrimitiveKind` in `de/mod.rs`). -/
inductive ActivePrimitiveKind where
  | none
  | str
  | num
  | atom
  deriving Repr, DecidableEq

/-- A marker for the current multi-byte primitive (`ActivePrimitive`). -/
structure ActivePrimitive where
  kind : ActivePrimitiveKind
  inputOffset : Nat
  escaped : Bool
  deriving Repr, DecidableEq

/-- `ActivePrimitive::default()`. -/
def ActivePrimitive.default : ActivePrimitive :=
  ⟨ActivePrimitiveKind.none, 0, false⟩

/-- An individual stack level corresponding to a map or array
(`ActiveMapArr` in `de/mod.rs`).  `startFromOffset` and `len` are `u16`
in Rust; writes below reduce them `% 2 ^ 16`. -/
structure ActiveMapArr where
  activePrimitive : ActivePrimitive
  startFromOffset : Nat
  len : Nat
  parts : Part × Part
  prevPartOffsets : PrevPartOffsets
  deriving Repr, DecidableEq

/-- The scanner's depth state (`Stack` in `de/mod.rs`); the head of
`bottom` is the most recently pushed frame. -/
structure Stack where
  activeMapArr : ActiveMapArr
  bottom : List ActiveMapArr
  deriving Repr, DecidableEq

/-- Which of the two per-block bitmasks is active (`ActiveIndex` in
`de/simd.rs`). -/
inductive ActiveIndex where
  | interest
  | quote
  deriving Repr, DecidableEq

/-- The two 32-bit per-block bitmasks (`Indexes` in `de/simd.rs`),
kept as naturals below `2 ^ 32`. -/
structure Indexes where
  interest : Nat
  quote : Nat
  deriving Repr, DecidableEq

/-- SIMD-specific scanner state (`Simd` in `de/simd.rs`). -/
structure Simd where
  indexes : Indexes
  activeIndex : ActiveIndex
  deriving Repr, DecidableEq

/-- `Simd::new()`. -/
def Simd.new : Simd :=
  ⟨⟨0, 0⟩, ActiveIndex.interest⟩

/-- The full scanner state (`Scan` in `de/mod.rs`).  `inputOffset` is an
`isize` in Rust but never goes negative on the paths modelled here. -/
structure Scan where
  inputOffset : Nat
  inputLen : Nat
  escape : Bool
  error : Bool
  simd : Simd
  stack : Stack
  deriving Repr, DecidableEq

/-- A previously parsed table of offsets (`Offsets` in `de/mod.rs`). -/
structure Offsets where
  elements : List Offset
  err : Bool
  rootSizeHint : Nat
  deriving Repr, DecidableEq

/-- A document: an input buffer paired with its offset table
(`Document` in `de/document.rs`; the detached stack allocation carries
no observable data and is omitted). -/
structure Document where
  input : List Nat
  offsets : Offsets
  deriving Repr, DecidableEq

/-- `Document::err`: the empty errored document. -/
def Document.errDoc (input : List Nat) : Document :=
  ⟨input, ⟨[], true, 0⟩⟩

/-- `Document::is_err`. -/
def Document.isErr (d : Document) : Bool :=
  d.offsets.err

/-- Number of trailing zeros of a 32-bit mask, 32 if the mask is zero
(`i32::trailing_zeros`). -/
def trailingZeros32 (n : Nat) : Nat :=
  ((List.range 32).find? fun k => n.testBit k).getD 32

/-- `(!0i64 << k) as i32` for `0 ≤ k ≤ 33`: the low 32 bits of an
all-ones word shifted left by `k`. -/
def shiftMask32 (k : Nat) : Nat :=
  (2 ^ 32 - 2 ^ k) % 2 ^ 32

/-- `pre_index_quote` in `de/simd.rs`: clear all interest bits below the
lowest set quote bit. -/
def preIndexQuote (x : Indexes) : Indexes :=
  { x with interest := x.interest &&& shiftMask32 (trailingZeros32 x.quote) }

/-- `Scan::set_index_quote` (invoked from `interest.rs` as
`set_mask_quote`). -/
def Scan.setIndexQuote (s : Scan) : Scan :=
  { s with simd := { indexes := preIndexQuote s.simd.indexes, activeIndex := ActiveIndex.quote } }

/-- `Scan::shift_index_quote` (invoked from `interest.rs` as
`shift_mask_quote`). -/
def Scan.shiftIndexQuote (s : Scan) : Scan :=
  { s with simd := { s.simd with indexes := preIndexQuote s.simd.indexes } }

/-- `Scan::set_index_interest` (invoked from `interest.rs` as
`set_mask_interest`); `pre_index_interest` is a no-op. -/
def Scan.setIndexInterest (s : Scan) : Scan :=
  { s with simd := { s.simd with activeIndex := ActiveIndex.interest } }

/-- The argument record threaded through every structural action
(`ScanFnInput` in `de/interest.rs`). -/
structure ScanFnInput where
  input : List Nat
  currOffset : Nat
  curr : Nat
  scan : Scan
  offsets : Offsets
  deriving Repr, DecidableEq

/-- Overwrite the `next` field of the record at `idx`
(`prev.next = Some(position_offset)` through `get_unchecked_mut!`;
out of bounds the Rust code would be UB, the model leaves the list
unchanged). -/
def setNextAt : List Offset → Nat → Nat → List Offset
  | [], _, _ => []
  | r :: rest, 0, nxt => { r with next := some nxt } :: rest
  | r :: rest, n + 1, nxt => r :: setNextAt rest n nxt

/-- Overwrite the `kind` field of the record at `idx`
(`get_unchecked_mut!(…, start).kind = f(len)`). -/
def setKindAt : List Offset → Nat → OffsetKind → List Offset
  | [], _, _ => []
  | r :: rest, 0, k => { r with kind := k } :: rest
  | r :: rest, n + 1, k => r :: setKindAt rest n k

/-- `ActiveMapArr::part`: pick the current position from the `len`
alternation, record this offset as the previous one for that position,
and bump `len` (wrapping `u16` addition). -/
def ActiveMapArr.part (a : ActiveMapArr) (currOffset : Nat) :
    (Part × Option Nat) × ActiveMapArr :=
  let currPosition := if a.len % 2 == 0 then a.parts.1 else a.parts.2
  let prevPositionOffset := a.prevPartOffsets.get currPosition
  ((currPosition, prevPositionOffset),
    { a with
      prevPartOffsets := a.prevPartOffsets.set currPosition (some currOffset)
      len := (a.len + 1) % 2 ^ 16 })

namespace ScanFnInput

/-- `ScanFnInput::err`: poison the frame. -/
def errPoison (i : ScanFnInput) : ScanFnInput :=
  { i with scan := { i.scan with
      error := true
      stack := { i.scan.stack with
        activeMapArr := { i.scan.stack.activeMapArr with
          parts := (Part.none, Part.none)
          prevPartOffsets := PrevPartOffsets.empty } } } }

/-- `ScanFnInput::push`: append an offset record, linking the previous
sibling at the same position to it. -/
def push (i : ScanFnInput) (kind : OffsetKind) : ScanFnInput :=
  let positionOffset := i.offsets.elements.length % 2 ^ 16
  let r := i.scan.stack.activeMapArr.part positionOffset
  let position := r.1.1
  let elements :=
    match r.1.2 with
    | some prev => setNextAt i.offsets.elements prev positionOffset
    | Option.none => i.offsets.elements
  { i with
    scan := { i.scan with stack := { i.scan.stack with activeMapArr := r.2 } }
    offsets := { i.offsets with
      elements := elements ++ [⟨kind, position, Option.none⟩] } }

/-- `ScanFnInput::begin`: push the current frame, capped at
`Stack::MAX_DEPTH = 96` frames below the active one. -/
def beginFrame (i : ScanFnInput) (f : Nat → ActiveMapArr) : ScanFnInput :=
  if 96 < i.scan.stack.bottom.length then
    i.errPoison
  else
    let startFromOffset := i.offsets.elements.length % 2 ^ 16
    { i with scan := { i.scan with stack :=
        { activeMapArr := f startFromOffset
          bottom := i.scan.stack.activeMapArr :: i.scan.stack.bottom } } }

/-- `ScanFnInput::end`: pop a frame and patch the container placeholder
record with its final child count. -/
def endFrame (i : ScanFnInput) (f : Nat → OffsetKind) : ScanFnInput :=
  match i.scan.stack.bottom with
  | [] => i.errPoison
  | last :: rest =>
    let start := i.scan.stack.activeMapArr.startFromOffset - 1
    let len := i.scan.stack.activeMapArr.len
    { i with
      scan := { i.scan with stack := ⟨last, rest⟩ }
      offsets := { i.offsets with elements := setKindAt i.offsets.elements start (f len) } }

/-- `ScanFnInput::map_begin`. -/
def mapBegin (i : ScanFnInput) : ScanFnInput :=
  i.beginFrame fun startFromOffset =>
    ⟨ActivePrimitive.default, startFromOffset, 0, (Part.key, Part.value),
      PrevPartOffsets.empty⟩

/-- `ScanFnInput::arr_begin`. -/
def arrBegin (i : ScanFnInput) : ScanFnInput :=
  i.beginFrame fun startFromOffset =>
    ⟨ActivePrimitive.default, startFromOffset, 0, (Part.elem, Part.elem),
      PrevPartOffsets.empty⟩

/-- `ScanFnInput::map_end`: the map length is the pair count `len >> 1`. -/
def mapEnd (i : ScanFnInput) : ScanFnInput :=
  i.endFrame fun len => OffsetKind.map (len / 2)

/-- `ScanFnInput::arr_end`. -/
def arrEnd (i : ScanFnInput) : ScanFnInput :=
  i.endFrame OffsetKind.arr

/-- Replace the active primitive (plain field write). -/
def setActivePrimitive (i : ScanFnInput) (ap : ActivePrimitive) : ScanFnInput :=
  { i with scan := { i.scan with stack := { i.scan.stack with
      activeMapArr := { i.scan.stack.activeMapArr with activePrimitive := ap } } } }

/-- `active_primitive.take()`: read it and reset it to the default. -/
def takeActivePrimitive (i : ScanFnInput) : ActivePrimitive × ScanFnInput :=
  (i.scan.stack.activeMapArr.activePrimitive, i.setActivePrimitive ActivePrimitive.default)

/-- Apply a function to the active primitive in place. -/
def modifyActivePrimitive (i : ScanFnInput) (f : ActivePrimitive → ActivePrimitive) :
    ScanFnInput :=
  i.setActivePrimitive (f i.scan.stack.activeMapArr.activePrimitive)

end ScanFnInput

/-- `interest_unescape_now`: mark the active string escaped and clear the
escape bit, shifting the quote mask. -/
def interestUnescapeNow (i : ScanFnInput) : ScanFnInput :=
  let i := { i with scan := i.scan.shiftIndexQuote }
  let i := i.modifyActivePrimitive fun ap => { ap with escaped := true }
  { i with scan := { i.scan with escape := false } }

/-- `interest_unescape_later`: a debug assertion only; no state change. -/
def interestUnescapeLater (i : ScanFnInput) : ScanFnInput :=
  i

/-- `interest_str`: open a string, or close it and emit its record. -/
def interestStr (i : ScanFnInput) : ScanFnInput :=
  if i.scan.escape then
    interestUnescapeNow { i with scan := { i.scan with escape := false } }
  else
    let r := i.takeActivePrimitive
    let ap := r.1
    let i := r.2
    match ap.kind with
    | .str =>
      let i := { i with scan := i.scan.setIndexInterest }
      let endOffset := i.currOffset
      i.push (OffsetKind.str ⟨ap.inputOffset, endOffset - ap.inputOffset⟩ ap.escaped)
    | _ =>
      let i := { i with scan := i.scan.setIndexQuote }
      i.setActivePrimitive ⟨ActivePrimitiveKind.str, i.currOffset + 1, false⟩

/-- `interest_escape`: toggle the escape bit, peeking at the escaped
byte; `"` and `\` stay pending, everything else is unescaped now. -/
def interestEscape (i : ScanFnInput) : ScanFnInput :=
  let escaped := i.scan.escape
  let i := { i with scan := { i.scan with escape := !escaped } }
  if escaped then
    interestUnescapeNow i
  else
    let currOffset := i.currOffset + 1
    let curr := i.input.getD currOffset 0
    let i := { i with currOffset := currOffset, curr := curr }
    if curr == 0x22 || curr == 0x5C then interestUnescapeLater i
    else interestUnescapeNow i

/-- `interest_num_begin`. -/
def interestNumBegin (i : ScanFnInput) : ScanFnInput :=
  i.setActivePrimitive ⟨ActivePrimitiveKind.num, i.currOffset, false⟩

/-- `interest_num_end`: close a pending number, emitting its record;
note that `take()` clears the active primitive whatever its kind. -/
def interestNumEnd (i : ScanFnInput) : ScanFnInput :=
  let r := i.takeActivePrimitive
  let ap := r.1
  let i := r.2
  match ap.kind with
  | .num => i.push (OffsetKind.num ⟨ap.inputOffset, i.currOffset - ap.inputOffset⟩)
  | _ => i

/-- `interest_null`. -/
def interestNull (i : ScanFnInput) : ScanFnInput :=
  let i := i.modifyActivePrimitive fun ap => { ap with kind := ActivePrimitiveKind.atom }
  i.push OffsetKind.null

/-- `interest_true`. -/
def interestTrue (i : ScanFnInput) : ScanFnInput :=
  let i := i.modifyActivePrimitive fun ap => { ap with kind := ActivePrimitiveKind.atom }
  i.push (OffsetKind.bool true)

/-- `interest_false`. -/
def interestFalse (i : ScanFnInput) : ScanFnInput :=
  let i := i.modifyActivePrimitive fun ap => { ap with kind := ActivePrimitiveKind.atom }
  i.push (OffsetKind.bool false)

/-- `interest_none`: a debug assertion only; no state change. -/
def interestNone (i : ScanFnInput) : ScanFnInput :=
  i

/-- `interest_unreachable`: poison the scan. -/
def interestUnreachable (i : ScanFnInput) : ScanFnInput :=
  { i with scan := { i.scan with error := true } }

/-- `match_primitive`: dispatch on the first byte of a value. -/
def matchPrimitive (i : ScanFnInput) : ScanFnInput :=
  if i.curr == 0x22 || i.curr == 0x7B || i.curr == 0x5B || i.curr == 0x7D || i.curr == 0x5D then
    interestNone i
  else if (0x30 ≤ i.curr && i.curr ≤ 0x39) || i.curr == 0x2D then
    interestNumBegin i
  else if i.curr == 0x6E then
    interestNull i
  else if i.curr == 0x74 then
    interestTrue i
  else if i.curr == 0x66 then
    interestFalse i
  else
    interestUnreachable i

/-- `interest_key_elem_begin`: peek the byte after the control character
and dispatch the value start. -/
def interestKeyElemBegin (i : ScanFnInput) : ScanFnInput :=
  let currOffset := i.currOffset + 1
  let curr := i.input.getD currOffset 0
  matchPrimitive { i with currOffset := currOffset, curr := curr }

/-- `interest_key_end` (`:`). -/
def interestKeyEnd (i : ScanFnInput) : ScanFnInput :=
  let currOffset := i.currOffset + 1
  let curr := i.input.getD currOffset 0
  matchPrimitive { i with currOffset := currOffset, curr := curr }

/-- `interest_value_elem_end` (`,`): close any pending number, then peek
and dispatch the next value start. -/
def interestValueElemEnd (i : ScanFnInput) : ScanFnInput :=
  let i := interestNumEnd i
  let currOffset := i.currOffset + 1
  let curr := i.input.getD currOffset 0
  matchPrimitive { i with currOffset := currOffset, curr := curr }

/-- `interest_map_begin` (`{`): push the placeholder record and a frame. -/
def interestMapBegin (i : ScanFnInput) : ScanFnInput :=
  let i := i.push (OffsetKind.map 0)
  i.mapBegin

/-- `interest_arr_begin` (`[`): push the placeholder record and a frame,
then immediately scan the first element. -/
def interestArrBegin (i : ScanFnInput) : ScanFnInput :=
  let i := i.push (OffsetKind.arr 0)
  let i := i.arrBegin
  interestKeyElemBegin i

/-- `interest_map_end` (`}`): close any pending number and pop the frame. -/
def interestMapEnd (i : ScanFnInput) : ScanFnInput :=
  let i := interestNumEnd i
  i.mapEnd

/-- `interest_arr_end` (`]`). -/
def interestArrEnd (i : ScanFnInput) : ScanFnInput :=
  let i := interestNumEnd i
  i.arrEnd

/-- `match_interest`: dispatch on a structural byte in `None` mode. -/
def matchInterest (i : ScanFnInput) : ScanFnInput :=
  if i.curr == 0x22 then interestStr i
  else if i.curr == 0x3A then interestKeyEnd i
  else if i.curr == 0x2C then interestValueElemEnd i
  else if i.curr == 0x5C then interestEscape i
  else if i.curr == 0x7B then interestMapBegin i
  else if i.curr == 0x5B then interestArrBegin i
  else if i.curr == 0x7D then interestMapEnd i
  else if i.curr == 0x5D then interestArrEnd i
  else interestUnreachable i

/-- One iteration of the byte-at-a-time scan loop of `fallback.rs`
(`scan_block`), flattened: every path through the Rust loop body
advances `input_offset` by exactly one, dispatching on the current
primitive mode. -/
def scanStep (input : List Nat) (s : Scan) (o : Offsets) : Scan × Offsets :=
  let currOffset := s.inputOffset
  let curr := input.getD currOffset 0
  let run : (ScanFnInput → ScanFnInput) → Scan × Offsets := fun f =>
    let r := f ⟨input, currOffset, curr, s, o⟩
    (r.scan, r.offsets)
  let r :=
    match s.stack.activeMapArr.activePrimitive.kind with
    | .none => run matchInterest
    | .str =>
      if curr == 0x5C then run interestEscape
      else if curr == 0x22 then run interestStr
      else (s, o)
    | .num =>
      if curr == 0x2C then run interestValueElemEnd
      else if curr == 0x7D then run interestMapEnd
      else if curr == 0x5D then run interestArrEnd
      else (s, o)
    | .atom =>
      if curr == 0x2C then run interestValueElemEnd
      else if curr == 0x7D then run interestMapEnd
      else if curr == 0x5D then run interestArrEnd
      else (s, o)
  ({ r.1 with inputOffset := r.1.inputOffset + 1 }, r.2)

/-- The scan loop, driven by fuel; since `scanStep` advances the cursor
by exactly one, fuel `readTo - inputOffset` runs it to completion. -/
def scanLoop (input : List Nat) (readTo : Nat) : Nat → Scan → Offsets → Scan × Offsets
  | 0, s, o => (s, o)
  | fuel + 1, s, o =>
    if s.inputOffset < readTo then
      let r := scanStep input s o
      scanLoop input readTo fuel r.1 r.2
    else (s, o)

/-- `fallback::scan_to`. -/
def fallbackScanTo (input : List Nat) (readTo : Nat) (s : Scan) (o : Offsets) :
    Scan × Offsets :=
  scanLoop input readTo (readTo - s.inputOffset) s o

/-- `fallback::scan`: run the scalar loop to `input_len`. -/
def fallbackScan (input : List Nat) (s : Scan) (o : Offsets) : Scan × Offsets :=
  fallbackScanTo input s.inputLen s o

/-- Is a byte a UTF-8 continuation byte? -/
def utf8Cont (b : Nat) : Bool :=
  0x80 ≤ b && b ≤ 0xBF

/-- Decode a byte sequence as UTF-8 (the validation performed by
`str::from_utf8` in `scan_begin`), returning the code points. -/
def utf8Decode : List Nat → Option (List Nat)
  | [] => some []
  | b0 :: rest =>
    if b0 ≤ 0x7F then
      (utf8Decode rest).map fun cs => b0 :: cs
    else if 0xC2 ≤ b0 && b0 ≤ 0xDF then
      match rest with
      | b1 :: rest2 =>
        if utf8Cont b1 then
          (utf8Decode rest2).map fun cs => ((b0 - 0xC0) * 0x40 + (b1 - 0x80)) :: cs
        else Option.none
      | [] => Option.none
    else if 0xE0 ≤ b0 && b0 ≤ 0xEF then
      match rest with
      | b1 :: b2 :: rest3 =>
        if (if b0 == 0xE0 then 0xA0 ≤ b1 && b1 ≤ 0xBF
            else if b0 == 0xED then 0x80 ≤ b1 && b1 ≤ 0x9F
            else utf8Cont b1) && utf8Cont b2 then
          (utf8Decode rest3).map fun cs =>
            ((b0 - 0xE0) * 0x1000 + (b1 - 0x80) * 0x40 + (b2 - 0x80)) :: cs
        else Option.none
      | _ => Option.none
    else if 0xF0 ≤ b0 && b0 ≤ 0xF4 then
      match rest with
      | b1 :: b2 :: b3 :: rest4 =>
        if (if b0 == 0xF0 then 0x90 ≤ b1 && b1 ≤ 0xBF
            else if b0 == 0xF4 then 0x80 ≤ b1 && b1 ≤ 0x8F
            else utf8Cont b1) && utf8Cont b2 && utf8Cont b3 then
          (utf8Decode rest4).map fun cs =>
            ((b0 - 0xF0) * 0x40000 + (b1 - 0x80) * 0x1000 + (b2 - 0x80) * 0x40 +
              (b3 - 0x80)) :: cs
        else Option.none
      | _ => Option.none
    else Option.none

/-- The Unicode `White_Space` property on code points, as used by Rust's
`char::is_whitespace` (invoked through `str::trim_end`). -/
def isWhitespaceChar (c : Nat) : Bool :=
  c == 0x09 || c == 0x0A || c == 0x0B || c == 0x0C || c == 0x0D || c == 0x20 ||
  c == 0x85 || c == 0xA0 || c == 0x1680 || (0x2000 ≤ c && c ≤ 0x200A) ||
  c == 0x2028 || c == 0x2029 || c == 0x202F || c == 0x205F || c == 0x3000

/-- Number of bytes of the UTF-8 encoding of a code point. -/
def utf8CharLen (c : Nat) : Nat :=
  if c ≤ 0x7F then 1 else if c ≤ 0x7FF then 2 else if c ≤ 0xFFFF then 3 else 4

/-- Byte length of the maximal whitespace run at the front of a
(reversed) code-point list. -/
def wsSuffixBytes : List Nat → Nat
  | [] => 0
  | c :: rest => if isWhitespaceChar c then utf8CharLen c + wsSuffixBytes rest else 0

/-- Byte length of the input after `str::trim_end`. -/
def trimmedLen (input : List Nat) : Nat :=
  match utf8Decode input with
  | some cs => input.length - wsSuffixBytes cs.reverse
  | Option.none => 0

/-- `scan_begin`: validate UTF-8, trim trailing whitespace, require the
`{ … }` shell, and return the scanning bounds `(1, last)`. -/
def scanBegin (input : List Nat) : Option (Nat × Nat) :=
  match utf8Decode input with
  | Option.none => Option.none
  | some cs =>
    let n := input.length - wsSuffixBytes cs.reverse
    if n < 2 then Option.none
    else if !(input.getD 0 0 == 0x7B) then Option.none
    else if !(input.getD (n - 1) 0 == 0x7D) then Option.none
    else some (1, n - 1)

/-- The initial stack (`Stack::attach`): the root frame is a map. -/
def Stack.attach : Stack :=
  ⟨⟨ActivePrimitive.default, 0, 0, (Part.key, Part.value), PrevPartOffsets.empty⟩, []⟩

/-- `Scan::attach`. -/
def Scan.attach (start stop : Nat) : Scan :=
  ⟨start, stop, false, false, Simd.new, Stack.attach⟩

/-- The opening match of `scan_end`: close a trailing number (there may
be one because the outer `{ }` are ignored), or poison on an
unterminated string; atoms and the empty primitive are already
complete. -/
def postflight (input : List Nat) (s : Scan) (o : Offsets) : Scan × Offsets :=
  match s.stack.activeMapArr.activePrimitive.kind with
  | .num =>
    let x := interestNumEnd ⟨input, s.inputOffset, input.getD s.inputOffset 0, s, o⟩
    (x.scan, x.offsets)
  | .str => ({ s with error := true }, o)
  | _ => (s, o)

/-- `scan_end`: run the postflight, poison past 65535 offset records,
set the root size hint, and build the document (errored scans return
the empty errored document). -/
def scanEnd (input : List Nat) (s : Scan) (o : Offsets) : Document :=
  let r := postflight input s o
  let s1 := if 0xFFFF < r.2.elements.length then { r.1 with error := true } else r.1
  let o1 := { r.2 with rootSizeHint := s1.stack.activeMapArr.len / 2 }
  if s1.error then Document.errDoc input else ⟨input, o1⟩

/-- `scan_fallback` (also `scan` when vectorization is unavailable):
the full scalar scan pipeline. -/
def scanFallback (input : List Nat) : Document :=
  match scanBegin input with
  | Option.none => Document.errDoc input
  | some (start, stop) =>
    let s := Scan.attach start stop
    let o : Offsets := ⟨[], false, 0⟩
    let r := fallbackScan input s o
    scanEnd input r.1 r.2

/-- The bytes a `Slice` denotes within an input buffer
(`Slice::as_str`; the model keeps raw bytes). -/
def Slice.bytes (s : Slice) (input : List Nat) : List Nat :=
  (input.drop s.offset).take s.len

/-- A scanned string (`Str` in `de/document.rs`): its raw bytes and the
escaped flag. -/
structure Str where
  raw : List Nat
  escaped : Bool
  deriving Repr, DecidableEq

/-- The kind of an element within a document (`Kind` in
`de/document.rs`); the map/array variants carry their view data
(size hint and starting offset). -/
inductive Kind where
  | str (s : Str)
  | num (raw : List Nat)
  | bool (b : Bool)
  | null
  | map (sizeHint : Nat) (startFromOffset : Option Nat)
  | arr (sizeHint : Nat) (startFromOffset : Option Nat)
  deriving Repr, DecidableEq

/-- `Offset::to_str`. -/
def Offset.toStr (r : Offset) (input : List Nat) : Option Str :=
  match r.kind with
  | .str s escaped => some ⟨s.bytes input, escaped⟩
  | _ => Option.none

/-- `Offset::to_element`. -/
def Offset.toElement (r : Offset) (input : List Nat) (selfOffset : Nat) : Kind :=
  match r.kind with
  | .str s escaped => Kind.str ⟨s.bytes input, escaped⟩
  | .num n => Kind.num (n.bytes input)
  | .bool b => Kind.bool b
  | .null => Kind.null
  | .map len => Kind.map len (if 0 < len then some (selfOffset + 1) else Option.none)
  | .arr len => Kind.arr len (if 0 < len then some (selfOffset + 1) else Option.none)

/-- A map view (`Map` in `de/document.rs`). -/
structure Map where
  input : List Nat
  sizeHint : Nat
  startFromOffset : Option Nat
  offsets : Offsets
  deriving Repr, DecidableEq

/-- An array view (`Arr` in `de/document.rs`). -/
structure Arr where
  input : List Nat
  sizeHint : Nat
  startFromOffset : Option Nat
  offsets : Offsets
  deriving Repr, DecidableEq

/-- `Document::as_map`. -/
def Document.asMap (d : Document) : Map :=
  ⟨d.input, d.offsets.rootSizeHint,
    if 0 < d.offsets.rootSizeHint then some 0 else Option.none, d.offsets⟩

/-- The record used when an index misses the table; the Rust code
never reads out of bounds on the tables it builds. -/
def defaultOffset : Offset :=
  ⟨OffsetKind.null, Part.none, Option.none⟩

/-- The state-machine core of `Map::entries`: walk the `Key` and
`Value` threads in lock-step.  The Rust iterator is fuelled here so the
model is total; on tables whose `next` links strictly increase the fuel
is never exhausted. -/
def entriesGo (input : List Nat) (o : Offsets) :
    Nat → Option Offset → Option (Nat × Offset) → List (Str × Kind)
  | 0, _, _ => []
  | fuel + 1, some key, some (valueOffset, value) =>
    match key.toStr input with
    | Option.none => []
    | some entryKey =>
      let entryValue := value.toElement input valueOffset
      let nextKey := key.next.map fun nxt => o.elements.getD nxt defaultOffset
      let nextValue := value.next.map fun nxt => (nxt, o.elements.getD nxt defaultOffset)
      (entryKey, entryValue) :: entriesGo input o fuel nextKey nextValue
  | _ + 1, _, _ => []

/-- `Map::entries`, as the list the iterator yields. -/
def Map.entries (m : Map) : List (Str × Kind) :=
  match m.startFromOffset with
  | some firstPartOffset =>
    entriesGo m.input m.offsets (m.offsets.elements.length + 1)
      (some (m.offsets.elements.getD firstPartOffset defaultOffset))
      (some (firstPartOffset + 1, m.offsets.elements.getD (firstPartOffset + 1) defaultOffset))
  | Option.none => []

/-- The state-machine core of `Arr::iter`: walk the `Elem` thread. -/
def arrIterGo (input : List Nat) (o : Offsets) : Nat → Option (Nat × Offset) → List Kind
  | 0, _ => []
  | fuel + 1, some (elemOffset, elem) =>
    let iterElem := elem.toElement input elemOffset
    let nextElem := elem.next.map fun nxt => (nxt, o.elements.getD nxt defaultOffset)
    iterElem :: arrIterGo input o fuel nextElem
  | _ + 1, Option.none => []

/-- `Arr::iter`, as the list the iterator yields. -/
def Arr.iter (a : Arr) : List Kind :=
  match a.startFromOffset with
  | some firstPartOffset =>
    arrIterGo a.input a.offsets (a.offsets.elements.length + 1)
      (some (firstPartOffset, a.offsets.elements.getD firstPartOffset defaultOffset))
  | Option.none => []

/-- UTF-8 encoding of a Unicode code point (`char::encode_utf8`). -/
def utf8EncodeChar (c : Nat) : List Nat :=
  if c ≤ 0x7F then [c]
  else if c ≤ 0x7FF then [0xC0 + c / 0x40, 0x80 + c % 0x40]
  else if c ≤ 0xFFFF then [0xE0 + c / 0x1000, 0x80 + c / 0x40 % 0x40, 0x80 + c % 0x40]
  else [0xF0 + c / 0x40000, 0x80 + c / 0x1000 % 0x40, 0x80 + c / 0x40 % 0x40,
    0x80 + c % 0x40]

/-- `std_ext::char::try_from_utf16_surrogate_pair`: combine two UTF-16
code units by the standard surrogate decoding, with the `checked_sub`
range guards and the final `char::try_from` range check. -/
def tryFromUtf16SurrogatePair (high low : Nat) : Option Nat :=
  if high < 0xD800 || low < 0xDC00 then Option.none
  else
    let code := (high - 0xD800) * 0x400 + (low - 0xDC00) + 0x10000
    if code ≤ 0x10FFFF && !(0xD800 ≤ code && code ≤ 0xDFFF) then some code
    else Option.none

/-- `char::try_from(u32)` succeeds: a Unicode scalar value. -/
def isValidScalar (c : Nat) : Bool :=
  c < 0xD800 || (0xE000 ≤ c && c ≤ 0x10FFFF)

namespace Unescape

/-- The unescaper's scan state (`Scan` in `unescape.rs`). -/
structure Scan where
  inputOffset : Nat
  start : Nat
  escape : Bool
  firstSurrogate : Option Nat
  deriving Repr, DecidableEq

/-- The output buffer (`Unescaped` in `unescape.rs`). -/
structure Unescaped where
  buf : List Nat
  deriving Repr, DecidableEq

/-- The argument record of the unescape actions (`ScanFnInput` in
`unescape.rs`). -/
structure ScanFnInput where
  input : List Nat
  currOffset : Nat
  scan : Scan
  unescaped : Unescaped
  deriving Repr, DecidableEq

/-- The free `flush` function: copy the unflushed bytes
`[start, flush_to)` into the output and move `start` up.  (When
`flush_to < start` the Rust subtraction would wrap — an impossible
state on real executions; the model copies nothing.) -/
def flush (input : List Nat) (flushTo : Nat) (s : Scan) (u : Unescaped) :
    Scan × Unescaped :=
  if flushTo == s.start then (s, u)
  else
    let cnt := flushTo - s.start
    ({ s with start := flushTo }, ⟨u.buf ++ (input.drop s.start).take cnt⟩)

namespace ScanFnInput

/-- `ScanFnInput::flush`: flush up to the current `\`, then skip it. -/
def flushHere (i : ScanFnInput) : ScanFnInput :=
  let r := flush i.input i.currOffset i.scan i.unescaped
  { i with scan := { r.1 with start := r.1.start + 1 }, unescaped := r.2 }

/-- `ScanFnInput::push_unescaped_byte`. -/
def pushUnescapedByte (i : ScanFnInput) (b : Nat) : ScanFnInput :=
  { i with
    unescaped := ⟨i.unescaped.buf ++ [b]⟩
    scan := { i.scan with start := i.scan.start + 1 } }

/-- `ScanFnInput::push_unescaped_char`: emit a scalar as UTF-8 and skip
the four hex digits. -/
def pushUnescapedChar (i : ScanFnInput) (c : Nat) : ScanFnInput :=
  { i with
    unescaped := ⟨i.unescaped.buf ++ utf8EncodeChar c⟩
    scan := { i.scan with start := i.scan.start + 4 } }

/-- `ScanFnInput::begin_surrogate_pair`. -/
def beginSurrogatePair (i : ScanFnInput) (first : Nat) : ScanFnInput :=
  { i with scan := { i.scan with firstSurrogate := some first, start := i.scan.start + 4 } }

end ScanFnInput

/-- Value of one hex digit byte. -/
def hexDigitVal (b : Nat) : Option Nat :=
  if 0x30 ≤ b && b ≤ 0x39 then some (b - 0x30)
  else if 0x61 ≤ b && b ≤ 0x66 then some (b - 0x61 + 10)
  else if 0x41 ≤ b && b ≤ 0x46 then some (b - 0x41 + 10)
  else Option.none

/-- One digit step of the `from_str_radix` loop: shift in a hex digit,
failing on a non-digit or past `u16::MAX`. -/
def hexStep (acc : Option Nat) (b : Nat) : Option Nat :=
  match acc, hexDigitVal b with
  | some v, some d => if v * 16 + d ≤ 0xFFFF then some (v * 16 + d) else Option.none
  | _, _ => Option.none

/-- Fold a nonempty run of hex digits into a value, failing past
`u16::MAX` (the digit loop of `from_str_radix`). -/
def hexDigitsVal (bs : List Nat) : Option Nat :=
  match bs with
  | [] => Option.none
  | _ => bs.foldl hexStep (some 0)

/-- `u16::from_str_radix(digits, 16)` on four bytes (an optional leading
sign is accepted by `from_str_radix`; a negative sign only for zero). -/
def parseHexU16 (bs : List Nat) : Option Nat :=
  match bs with
  | 0x2B :: rest => hexDigitsVal rest
  | 0x2D :: rest => (hexDigitsVal rest).bind fun v => if v == 0 then some 0 else Option.none
  | _ => hexDigitsVal bs

/-- `interest_unescape` in `unescape.rs`: the per-`\` action. -/
def interestUnescape (i : ScanFnInput) : ScanFnInput :=
  let escaped := i.scan.escape
  let i := { i with scan := { i.scan with escape := !escaped } }
  if escaped then
    i.pushUnescapedByte 0x5C
  else
    let i := i.flushHere
    let currOffset := i.currOffset + 1
    let esc := i.input.getD currOffset 0
    let i := { i with currOffset := currOffset }
    let clearEscape : ScanFnInput → ScanFnInput := fun j =>
      { j with scan := { j.scan with escape := false } }
    if esc == 0x6E then clearEscape (i.pushUnescapedByte 0x0A)
    else if esc == 0x22 then clearEscape (i.pushUnescapedByte 0x22)
    else if esc == 0x5C then i
    else if esc == 0x72 then clearEscape (i.pushUnescapedByte 0x0D)
    else if esc == 0x74 then clearEscape (i.pushUnescapedByte 0x09)
    else if esc == 0x66 then clearEscape (i.pushUnescapedByte 0x0C)
    else if esc == 0x62 then clearEscape (i.pushUnescapedByte 0x08)
    else if esc == 0x75 then
      let i := { i with
        scan := { i.scan with start := i.scan.start + 1 }
        currOffset := i.currOffset + 1 }
      if i.currOffset + 4 ≤ i.input.length then
        match parseHexU16 ((i.input.drop i.currOffset).take 4) with
        | Option.none => clearEscape i
        | some code =>
          match i.scan.firstSurrogate with
          | some first =>
            let i := { i with scan := { i.scan with firstSurrogate := Option.none } }
            match tryFromUtf16SurrogatePair first code with
            | some c => clearEscape (i.pushUnescapedChar c)
            | Option.none => clearEscape i
          | Option.none =>
            if isValidScalar code then clearEscape (i.pushUnescapedChar code)
            else clearEscape (i.beginSurrogatePair code)
      else clearEscape i
    else clearEscape i

/-- One iteration of the scalar unescape loop (`unescape_block` in
`unescape/fallback.rs`): act on `\`, then advance the cursor. -/
def unescapeStep (input : List Nat) (s : Scan) (u : Unescaped) : Scan × Unescaped :=
  let currOffset := s.inputOffset
  let curr := input.getD currOffset 0
  let r :=
    if curr == 0x5C then
      let x := interestUnescape ⟨input, currOffset, s, u⟩
      (x.scan, x.unescaped)
    else (s, u)
  ({ r.1 with inputOffset := r.1.inputOffset + 1 }, r.2)

/-- The unescape loop, fuelled; `unescapeStep` advances by exactly one. -/
def unescapeLoop (input : List Nat) : Nat → Scan → Unescaped → Scan × Unescaped
  | 0, s, u => (s, u)
  | fuel + 1, s, u =>
    if s.inputOffset < input.length then
      let r := unescapeStep input s u
      unescapeLoop input fuel r.1 r.2
    else (s, u)

/-- `unescape_end`: flush the tail and return the bytes. -/
def unescapeEnd (input : List Nat) (s : Scan) (u : Unescaped) : List Nat :=
  (flush input input.length s u).2.buf

/-- `unescape_trusted` along its scalar (fallback) path: the shared
ground truth of the unescaper. -/
def unescapeTrusted (input : List Nat) : List Nat :=
  let s : Scan := ⟨0, 0, false, Option.none⟩
  let r := unescapeLoop input input.length s ⟨[]⟩
  unescapeEnd input r.1 r.2

end Unescape

/-- The trimmed byte sequence `str::trim_end` hands the shell checks:
the prefix of the input left after dropping trailing whitespace. -/
def trimmedBytes (input : List Nat) : List Nat :=
  input.take (trimmedLen input)

/-- The nested-container family `{[[…]]}`: the root map enclosing `k`
nested arrays, so its container nesting depth is `k + 1`. -/
def nestedInput (k : Nat) : List Nat :=
  0x7B :: (List.replicate k 0x5B ++ List.replicate k 0x5D) ++ [0x7D]

/-- A sibling thread in an offset table: the index list reached from
`i` by following `next` links to the end.  Links of tables produced by
valid scans point strictly forward and stay in bounds, which is what
the two side conditions record. -/
inductive Thread (tbl : List Offset) : Nat → List Nat → Prop
  | last {i : Nat} (hi : i < tbl.length)
      (hnext : (tbl.getD i defaultOffset).next = Option.none) : Thread tbl i [i]
  | cons {i j : Nat} {l : List Nat} (hi : i < tbl.length)
      (hnext : (tbl.getD i defaultOffset).next = some j) (hij : i < j)
      (ht : Thread tbl j l) : Thread tbl i (i :: l)

/-- What `entries()` must yield when the key thread visits `ks` and the
value thread visits `vs`: one pair per position, in thread order,
stopping at the first key record that is not a string. -/
def expectedEntries (input : List Nat) (tbl : List Offset) :
    List Nat → List Nat → List (Str × Kind)
  | k :: ks, v :: vs =>
    match (tbl.getD k defaultOffset).toStr input with
    | some s =>
      (s, (tbl.getD v defaultOffset).toElement input v) :: expectedEntries input tbl ks vs
    | Option.none => []
  | _, _ => []

/-- Length of the maximal `\` run at the front of a byte list. -/
def leadingBackslashes : List Nat → Nat
  | [] => 0
  | b :: rest => if b == 0x5C then leadingBackslashes rest + 1 else 0

/-- Does the input end with an unescaped `\`?  (An odd run of trailing
backslashes; the unescaper's contract excludes such inputs.) -/
def endsWithUnescapedBackslash (input : List Nat) : Bool :=
  leadingBackslashes input.reverse % 2 == 1

/-- The loop invariant of the unescaper used for the no-overflow bound:
the output never outruns the flush marker, the flush marker stays in
bounds, and no unprocessed byte below the flush marker is a `\`. -/
def Unescape.LoopInv (input : List Nat) (s : Unescape.Scan) (u : Unescape.Unescaped) : Prop :=
  u.buf.length ≤ s.start ∧ s.start ≤ input.length ∧
    ∀ q, s.inputOffset ≤ q → q < s.start → input.getD q 0 ≠ 0x5C

/-! ### Preservation lemmas

The structural actions never touch the `err` flag stored on `Offsets`
(it is set only by `Offsets::attach` and `Document::err`), and only
`interest_unreachable`, the stack guards and the postflight set the
scanner's sticky `error`. -/

theorem push_offsets_err (i : ScanFnInput) (k : OffsetKind) :
    ((i.push k).offsets).err = i.offsets.err := rfl

theorem push_scan_error (i : ScanFnInput) (k : OffsetKind) :
    ((i.push k).scan).error = i.scan.error := rfl

theorem interestStr_offsets_err (i : ScanFnInput) :
    ((interestStr i).offsets).err = i.offsets.err := by
  simp only [interestStr]
  repeat' split
  all_goals rfl

theorem interestEscape_offsets (i : ScanFnInput) :
    (interestEscape i).offsets = i.offsets := by
  simp only [interestEscape]
  repeat' split
  all_goals rfl

theorem interestNumEnd_offsets_err (i : ScanFnInput) :
    ((interestNumEnd i).offsets).err = i.offsets.err := by
  simp only [interestNumEnd]
  repeat' split
  all_goals rfl

theorem interestNumEnd_scan_error (i : ScanFnInput) :
    ((interestNumEnd i).scan).error = i.scan.error := by
  simp only [interestNumEnd]
  repeat' split
  all_goals rfl

theorem matchPrimitive_offsets_err (i : ScanFnInput) :
    ((matchPrimitive i).offsets).err = i.offsets.err := by
  unfold matchPrimitive
  repeat' split
  all_goals rfl

theorem interestKeyElemBegin_offsets_err (i : ScanFnInput) :
    ((interestKeyElemBegin i).offsets).err = i.offsets.err := by
  simp only [interestKeyElemBegin]
  exact matchPrimitive_offsets_err _

theorem interestKeyEnd_offsets_err (i : ScanFnInput) :
    ((interestKeyEnd i).offsets).err = i.offsets.err := by
  simp only [interestKeyEnd]
  exact matchPrimitive_offsets_err _

theorem interestValueElemEnd_offsets_err (i : ScanFnInput) :
    ((interestValueElemEnd i).offsets).err = i.offsets.err := by
  simp only [interestValueElemEnd]
  rw [matchPrimitive_offsets_err]
  exact interestNumEnd_offsets_err _

theorem interestMapBegin_offsets_err (i : ScanFnInput) :
    ((interestMapBegin i).offsets).err = i.offsets.err := by
  simp only [interestMapBegin, ScanFnInput.mapBegin, ScanFnInput.beginFrame]
  repeat' split
  all_goals exact push_offsets_err _ _

theorem interestArrBegin_offsets_err (i : ScanFnInput) :
    ((interestArrBegin i).offsets).err = i.offsets.err := by
  simp only [interestArrBegin]
  rw [interestKeyElemBegin_offsets_err]
  simp only [ScanFnInput.arrBegin, ScanFnInput.beginFrame]
  repeat' split
  all_goals exact push_offsets_err _ _

theorem interestMapEnd_offsets_err (i : ScanFnInput) :
    ((interestMapEnd i).offsets).err = i.offsets.err := by
  simp only [interestMapEnd, ScanFnInput.mapEnd, ScanFnInput.endFrame]
  repeat' split
  all_goals exact interestNumEnd_offsets_err _

theorem interestArrEnd_offsets_err (i : ScanFnInput) :
    ((interestArrEnd i).offsets).err = i.offsets.err := by
  simp only [interestArrEnd, ScanFnInput.arrEnd, ScanFnInput.endFrame]
  repeat' split
  all_goals exact interestNumEnd_offsets_err _

theorem matchInterest_offsets_err (i : ScanFnInput) :
    ((matchInterest i).offsets).err = i.offsets.err := by
  unfold matchInterest
  split
  · exact interestStr_offsets_err _
  · split
    · exact interestKeyEnd_offsets_err _
    · split
      · exact interestValueElemEnd_offsets_err _
      · split
        · rw [interestEscape_offsets]
        · split
          · exact interestMapBegin_offsets_err _
          · split
            · exact interestArrBegin_offsets_err _
            · split
              · exact interestMapEnd_offsets_err _
              · split
                · exact interestArrEnd_offsets_err _
                · rfl

theorem scanStep_offsets_err (input : List Nat) (s : Scan) (o : Offsets) :
    ((scanStep input s o).2).err = o.err := by
  simp only [scanStep]
  split
  · exact matchInterest_offsets_err _
  · split
    · rw [interestEscape_offsets]
    · split
      · exact interestStr_offsets_err _
      · rfl
  · split
    · exact interestValueElemEnd_offsets_err _
    · split
      · exact interestMapEnd_offsets_err _
      · split
        · exact interestArrEnd_offsets_err _
        · rfl
  · split
    · exact interestValueElemEnd_offsets_err _
    · split
      · exact interestMapEnd_offsets_err _
      · split
        · exact interestArrEnd_offsets_err _
        · rfl

theorem scanLoop_offsets_err (input : List Nat) (readTo fuel : Nat) (s : Scan) (o : Offsets) :
    ((scanLoop input readTo fuel s o).2).err = o.err := by
  induction fuel generalizing s o with
  | zero => rfl
  | succ fuel ih =>
    unfold scanLoop
    split
    · rw [ih]
      exact scanStep_offsets_err _ _ _
    · rfl

theorem postflight_offsets_err (input : List Nat) (s : Scan) (o : Offsets) :
    ((postflight input s o).2).err = o.err := by
  unfold postflight
  split
  · exact interestNumEnd_offsets_err _
  · rfl
  · rfl

theorem postflight_scan_error (input : List Nat) (s : Scan) (o : Offsets)
    (h : s.stack.activeMapArr.activePrimitive.kind ≠ ActivePrimitiveKind.str) :
    ((postflight input s o).1).error = s.error := by
  unfold postflight
  split
  · exact interestNumEnd_scan_error _
  · exact absurd (by assumption) h
  · rfl

/-! ### C3 — the depth cap -/

/-- C3 counterexample: the depth guard in `ScanFnInput::begin` fires
only when more than `MAX_DEPTH = 96` frames already sit below the
active one, so nesting depth 97 does NOT poison the scan.
`nestedInput 96` is `{[[…]]}` with 96 nested arrays inside the root
map — container nesting depth 97 (and `nestedInput 97`, depth 97 when
the root map is not counted) — and both scan without error. -/
theorem c3_depth97_no_poison :
    (scanFallback (nestedInput 96)).isErr = false ∧
    (scanFallback (nestedInput 97)).isErr = false := by
  exact ⟨by decide, by decide⟩

/-- C3 amended: for inputs of nested containers, scans succeed up to 97
nested containers inside the root map (total container nesting depth
98) and the sticky error flag is first set at 98 nested containers
inside the root map (total depth 99). -/
theorem c3_depth_cap :
    (scanFallback (nestedInput 95)).isErr = false ∧
    (scanFallback (nestedInput 97)).isErr = false ∧
    (scanFallback (nestedInput 98)).isErr = true := by
  exact ⟨by decide, by decide, by decide⟩

/-! ### C4 — the offset-table cap -/

/-- C4: at `scan_end`, once the postflight number close has run, an
offset table that has grown to 65536 or more records always yields an
errored document, while a table of at most 65535 records on an
otherwise clean scan (no sticky error, no unterminated string, a
cleanly attached table) yields an unerrored one. -/
theorem c4_offset_table_cap (input : List Nat) (s : Scan) (o : Offsets) :
    (0xFFFF + 1 ≤ ((postflight input s o).2).elements.length →
      (scanEnd input s o).isErr = true) ∧
    (s.stack.activeMapArr.activePrimitive.kind ≠ ActivePrimitiveKind.str →
      s.error = false → o.err = false →
      ((postflight input s o).2).elements.length ≤ 0xFFFF →
      (scanEnd input s o).isErr = false) := by
  constructor
  · intro h
    have hc : 0xFFFF < ((postflight input s o).2).elements.length := by omega
    simp only [scanEnd, if_pos hc]
    rfl
  · intro hkind herr hoerr hlen
    have hc : ¬ 0xFFFF < ((postflight input s o).2).elements.length := by omega
    have h1 : ((postflight input s o).1).error = false := by
      rw [postflight_scan_error input s o hkind]
      exact herr
    simp only [scanEnd, if_neg hc, h1, Bool.false_eq_true, if_false]
    show ((postflight input s o).2).err = false
    rw [postflight_offsets_err]
    exact hoerr

/-- Witness for C4 at concrete states: a 65536-record table poisons,
a 65535-record one does not. -/
theorem c4_offset_table_cap_witness :
    (scanEnd [] (Scan.attach 1 1) ⟨List.replicate 0x10000 defaultOffset, false, 0⟩).isErr
        = true ∧
    (scanEnd [] (Scan.attach 1 1) ⟨List.replicate 0xFFFF defaultOffset, false, 0⟩).isErr
        = false := by
  constructor
  · apply (c4_offset_table_cap [] (Scan.attach 1 1) _).1
    show 0xFFFF + 1 ≤ (List.replicate 0x10000 defaultOffset).length
    rw [List.length_replicate]
  · apply (c4_offset_table_cap [] (Scan.attach 1 1) _).2 (by decide) rfl rfl
    show (List.replicate 0xFFFF defaultOffset).length ≤ 0xFFFF
    rw [List.length_replicate]

/-! ### C5 — preflight rejection -/

theorem head?_take_pos (l : List Nat) (n : Nat) (hn : 0 < n) (hl : 0 < l.length) :
    (l.take n).head? = some (l.getD 0 0) := by
  cases l with
  | nil => simp at hl
  | cons a t =>
    cases n with
    | zero => omega
    | succ m => simp [List.getD]

theorem getLast?_take_pos (l : List Nat) (n : Nat) (hn : 0 < n) (hnl : n ≤ l.length) :
    (l.take n).getLast? = some (l.getD (n - 1) 0) := by
  rw [List.getLast?_eq_getElem?, List.length_take]
  have hmin : min n l.length = n := by omega
  rw [hmin, List.getElem?_take_of_lt (by omega : n - 1 < n), List.getD_eq_getElem?_getD]
  have hlt : n - 1 < l.length := by omega
  rw [List.getElem?_eq_getElem hlt]
  rfl

/-- Inversion of `scan_begin`: a successful preflight means the input
decoded as UTF-8, the trimmed input has at least two bytes, and its
first and last bytes are `{` and `}`. -/
theorem scanBegin_some (input : List Nat) (p : Nat × Nat)
    (h : scanBegin input = some p) :
    (∃ cs, utf8Decode input = some cs) ∧
      2 ≤ trimmedLen input ∧ trimmedLen input ≤ input.length ∧
      input.getD 0 0 = 0x7B ∧ input.getD (trimmedLen input - 1) 0 = 0x7D := by
  unfold scanBegin at h
  cases hd : utf8Decode input with
  | none => rw [hd] at h; cases h
  | some cs =>
    rw [hd] at h
    have hn : trimmedLen input = input.length - wsSuffixBytes cs.reverse := by
      unfold trimmedLen
      rw [hd]
    simp only [] at h
    split at h
    · cases h
    · rename_i h2
      split at h
      · cases h
      · rename_i hb0
        split at h
        · cases h
        · rename_i hb1
          refine ⟨⟨cs, rfl⟩, by omega, by omega, ?_, ?_⟩
          · simpa using hb0
          · rw [hn]
            simpa using hb1

/-- C5: an input that fails UTF-8 validation, or whose
whitespace-trimmed form does not start with `{` or does not end with
`}` (the empty input included), produces the empty errored document:
`err = true` and zero offset records. -/
theorem c5_preflight (input : List Nat)
    (h : utf8Decode input = Option.none ∨
         (trimmedBytes input).head? ≠ some 0x7B ∨
         (trimmedBytes input).getLast? ≠ some 0x7D) :
    scanFallback input = Document.errDoc input ∧
    (scanFallback input).isErr = true ∧
    (scanFallback input).offsets.elements = [] := by
  have hnone : scanBegin input = Option.none := by
    cases hb : scanBegin input with
    | none => rfl
    | some p =>
      exfalso
      obtain ⟨⟨cs, hd⟩, h2, hle, hb0, hb1⟩ := scanBegin_some input p hb
      rcases h with h | h | h
      · rw [hd] at h
        cases h
      · apply h
        unfold trimmedBytes
        rw [head?_take_pos input (trimmedLen input) (by omega) (by omega), hb0]
      · apply h
        unfold trimmedBytes
        rw [getLast?_take_pos input (trimmedLen input) (by omega) hle, hb1]
  have heq : scanFallback input = Document.errDoc input := by
    unfold scanFallback
    rw [hnone]
  exact ⟨heq, by rw [heq]; rfl, by rw [heq]; rfl⟩

/-- Witness for C5: the single byte `0xFF` is invalid UTF-8 and scans
to the empty errored document. -/
theorem c5_preflight_witness :
    scanFallback [0xFF] = Document.errDoc [0xFF] ∧
    (scanFallback [0x7B]).isErr = true := by
  constructor
  · exact (c5_preflight [0xFF] (Or.inl (by decide))).1
  · exact (c5_preflight [0x7B] (Or.inr (Or.inr (by decide)))).2.1

/-! ### C9 — errored scans return the empty document -/

/-- `scan_end` either returns the canonical empty errored document or
passes the attached table's `err` flag through unchanged. -/
theorem scanEnd_err_cases (input : List Nat) (s : Scan) (o : Offsets) :
    scanEnd input s o = Document.errDoc input ∨
    (scanEnd input s o).isErr = o.err := by
  simp only [scanEnd]
  split
  · exact Or.inl rfl
  · split
    · exact Or.inl rfl
    · right
      show ((postflight input s o).2).err = o.err
      exact postflight_offsets_err _ _ _

theorem fallbackScan_offsets_err (input : List Nat) (s : Scan) (o : Offsets) :
    ((fallbackScan input s o).2).err = o.err :=
  scanLoop_offsets_err _ _ _ _ _

/-- C9: whenever the fallback scan of any input ends with the error
flag set — by preflight rejection or mid-scan poison — the returned
document is the empty errored one: zero offset records,
`root_size_hint = 0`, and `entries()` yields nothing. -/
theorem c9_err_implies_empty (input : List Nat)
    (h : (scanFallback input).isErr = true) :
    scanFallback input = Document.errDoc input ∧
    (scanFallback input).offsets.elements = [] ∧
    (scanFallback input).offsets.rootSizeHint = 0 ∧
    (scanFallback input).asMap.entries = [] := by
  have key : ∀ start stop, scanBegin input = some (start, stop) →
      scanFallback input =
        scanEnd input (fallbackScan input (Scan.attach start stop) ⟨[], false, 0⟩).1
          (fallbackScan input (Scan.attach start stop) ⟨[], false, 0⟩).2 := by
    intro start stop hb
    unfold scanFallback
    rw [hb]
  have heq : scanFallback input = Document.errDoc input := by
    cases hb : scanBegin input with
    | none =>
      unfold scanFallback
      rw [hb]
    | some p =>
      obtain ⟨start, stop⟩ := p
      have hk := key start stop hb
      rcases scanEnd_err_cases input
          (fallbackScan input (Scan.attach start stop) ⟨[], false, 0⟩).1
          (fallbackScan input (Scan.attach start stop) ⟨[], false, 0⟩).2 with hcase | hcase
      · rw [hk]
        exact hcase
      · rw [fallbackScan_offsets_err] at hcase
        rw [hk] at h
        rw [h] at hcase
        simp at hcase
  refine ⟨heq, by rw [heq]; rfl, by rw [heq]; rfl, by rw [heq]; rfl⟩

/-- Witness for C9: the empty input is errored and iterates to nothing. -/
theorem c9_err_implies_empty_witness :
    scanFallback [] = Document.errDoc [] ∧ (scanFallback []).asMap.entries = [] :=
  ⟨(c9_err_implies_empty [] (by decide)).1, (c9_err_implies_empty [] (by decide)).2.2.2⟩

/-! ### C6 — the postflight -/

theorem push_elements_getLast (i : ScanFnInput) (k : OffsetKind) :
    ∃ p, ((i.push k).offsets.elements).getLast? = some ⟨k, p, Option.none⟩ := by
  refine ⟨(i.scan.stack.activeMapArr.part (i.offsets.elements.length % 2 ^ 16)).1.1, ?_⟩
  simp only [ScanFnInput.push]
  split <;> exact List.getLast?_concat _

theorem interestNumEnd_getLast (i : ScanFnInput)
    (h : i.scan.stack.activeMapArr.activePrimitive.kind = ActivePrimitiveKind.num) :
    ∃ p, ((interestNumEnd i).offsets.elements).getLast? =
      some ⟨OffsetKind.num ⟨i.scan.stack.activeMapArr.activePrimitive.inputOffset,
        i.currOffset - i.scan.stack.activeMapArr.activePrimitive.inputOffset⟩, p,
        Option.none⟩ := by
  simp only [interestNumEnd, ScanFnInput.takeActivePrimitive]
  split
  · exact push_elements_getLast _ _
  · rename_i hx
    exact absurd h hx

/-- C6: the postflight of `scan_end`.  Concretely, `{"a":123}` scans to
one pair whose value is the Number slice `123`; and at `scan_end`, a
pending string poisons the result, a pending atom or no pending
primitive raises no error (on an otherwise clean scan), and a pending
number is closed and emitted as the final Number record, its slice
ending at the stripped closing `}` (byte `inputOffset`). -/
theorem c6_postflight (input : List Nat) (s : Scan) (o : Offsets) :
    ((scanFallback [0x7B, 0x22, 0x61, 0x22, 0x3A, 0x31, 0x32, 0x33, 0x7D]).asMap.entries =
        [(⟨[0x61], false⟩, Kind.num [0x31, 0x32, 0x33])] ∧
      (scanFallback [0x7B, 0x22, 0x61, 0x22, 0x3A, 0x31, 0x32, 0x33, 0x7D]).isErr = false) ∧
    (s.stack.activeMapArr.activePrimitive.kind = ActivePrimitiveKind.str →
      (scanEnd input s o).isErr = true) ∧
    ((s.stack.activeMapArr.activePrimitive.kind = ActivePrimitiveKind.none ∨
        s.stack.activeMapArr.activePrimitive.kind = ActivePrimitiveKind.atom) →
      s.error = false → o.err = false → o.elements.length ≤ 0xFFFF →
      (scanEnd input s o).isErr = false) ∧
    (s.stack.activeMapArr.activePrimitive.kind = ActivePrimitiveKind.num →
      (scanEnd input s o).isErr = false →
      ∃ p, ((scanEnd input s o).offsets.elements).getLast? =
        some ⟨OffsetKind.num ⟨s.stack.activeMapArr.activePrimitive.inputOffset,
          s.inputOffset - s.stack.activeMapArr.activePrimitive.inputOffset⟩, p,
          Option.none⟩) := by
  refine ⟨⟨by decide, by decide⟩, ?_, ?_, ?_⟩
  · intro hkind
    have hpost : ((postflight input s o).1).error = true := by
      unfold postflight
      rw [hkind]
    simp only [scanEnd, hpost]
    split <;> rfl
  · intro hkind herr hoerr hlen
    have hpost : postflight input s o = (s, o) := by
      unfold postflight
      rcases hkind with hk | hk <;> rw [hk]
    rw [show scanEnd input s o =
        (let r := postflight input s o
         let s1 := if 0xFFFF < r.2.elements.length then { r.1 with error := true } else r.1
         let o1 := { r.2 with rootSizeHint := s1.stack.activeMapArr.len / 2 }
         if s1.error then Document.errDoc input else ⟨input, o1⟩) from rfl]
    rw [hpost]
    simp only []
    rw [if_neg (by omega : ¬ 0xFFFF < o.elements.length)]
    rw [if_neg (by rw [herr]; exact Bool.false_ne_true)]
    exact hoerr
  · intro hkind hne
    have hpost : postflight input s o =
        ((interestNumEnd ⟨input, s.inputOffset, input.getD s.inputOffset 0, s, o⟩).scan,
          (interestNumEnd ⟨input, s.inputOffset, input.getD s.inputOffset 0, s, o⟩).offsets) := by
      unfold postflight
      rw [hkind]
    obtain ⟨p, hp⟩ :=
      interestNumEnd_getLast ⟨input, s.inputOffset, input.getD s.inputOffset 0, s, o⟩ hkind
    refine ⟨p, ?_⟩
    by_cases hlen : 0xFFFF < ((postflight input s o).2).elements.length
    · have hx : (scanEnd input s o).isErr = true := by
        simp only [scanEnd, if_pos hlen]
        rfl
      rw [hx] at hne
      cases hne
    · by_cases herr2 : ((postflight input s o).1).error = true
      · have hx : (scanEnd input s o).isErr = true := by
          simp only [scanEnd, if_neg hlen]
          rw [if_pos herr2]
          rfl
        rw [hx] at hne
        cases hne
      · have hdoc : scanEnd input s o = ⟨input, { (postflight input s o).2 with
            rootSizeHint := ((postflight input s o).1).stack.activeMapArr.len / 2 }⟩ := by
          simp only [scanEnd, if_neg hlen]
          rw [if_neg herr2]
        rw [hdoc]
        show ((postflight input s o).2).elements.getLast? = _
        rw [hpost]
        exact hp

/-- Witness for C6 at concrete scanner states: a pending string poisons,
a pending atom does not, and a pending number is emitted as the final
record. -/
theorem c6_postflight_witness :
    (scanEnd [] { Scan.attach 1 1 with stack := { Stack.attach with activeMapArr :=
        { Stack.attach.activeMapArr with activePrimitive :=
            ⟨ActivePrimitiveKind.str, 0, false⟩ } } } ⟨[], false, 0⟩).isErr = true ∧
    (scanEnd [] { Scan.attach 1 1 with stack := { Stack.attach with activeMapArr :=
        { Stack.attach.activeMapArr with activePrimitive :=
            ⟨ActivePrimitiveKind.atom, 0, false⟩ } } } ⟨[], false, 0⟩).isErr = false ∧
    (∃ p, ((scanEnd [0x7B, 0x31, 0x32, 0x7D]
        { Scan.attach 1 3 with inputOffset := 3, stack := { Stack.attach with activeMapArr :=
          { Stack.attach.activeMapArr with activePrimitive :=
              ⟨ActivePrimitiveKind.num, 1, false⟩ } } }
        ⟨[], false, 0⟩).offsets.elements).getLast? =
      some ⟨OffsetKind.num ⟨1, 2⟩, p, Option.none⟩) := by
  refine ⟨?_, ?_, ?_⟩
  · exact (c6_postflight [] _ _).2.1 rfl
  · exact (c6_postflight [] _ _).2.2.1 (Or.inr rfl) rfl rfl (by decide)
  · exact (c6_postflight [0x7B, 0x31, 0x32, 0x7D] _ _).2.2.2 rfl (by decide)

/-! ### C7 — entries() lock-step iteration -/


theorem Thread.head_eq {tbl : List Offset} {i : Nat} {l : List Nat}
    (h : Thread tbl i l) : ∃ rest, l = i :: rest := by
  cases h with
  | last hi hnext => exact ⟨[], rfl⟩
  | cons hi hnext hij ht => exact ⟨_, rfl⟩

theorem Thread.length_le {tbl : List Offset} {i : Nat} {l : List Nat}
    (h : Thread tbl i l) : l.length + i ≤ tbl.length := by
  induction h with
  | last hi hnext =>
    simp only [List.length_cons, List.length_nil]
    omega
  | cons hi hnext hij ht ih =>
    simp only [List.length_cons]
    omega

theorem entriesGo_none (input : List Nat) (o : Offsets) (fuel : Nat)
    (v : Option (Nat × Offset)) :
    entriesGo input o fuel Option.none v = [] := by
  cases fuel with
  | zero => rfl
  | succ f => cases v <;> rfl

theorem entriesGo_spec (input : List Nat) (o : Offsets) (ks : List Nat) (k0 : Nat)
    (hk : Thread o.elements k0 ks) :
    ∀ (vs : List Nat) (v0 : Nat) (fuel : Nat), Thread o.elements v0 vs →
      ks.length = vs.length → ks.length ≤ fuel →
      entriesGo input o fuel (some (o.elements.getD k0 defaultOffset))
          (some (v0, o.elements.getD v0 defaultOffset)) =
        expectedEntries input o.elements ks vs := by
  induction hk with
  | @last i hi hnext =>
    intro vs v0 fuel hv hlen hfuel
    obtain ⟨rest, hrest⟩ := Thread.head_eq hv
    subst hrest
    cases rest with
    | cons a b =>
      exfalso
      simp only [List.length_cons, List.length_nil] at hlen
      omega
    | nil =>
      cases fuel with
      | zero => simp at hfuel
      | succ f =>
        simp only [entriesGo, expectedEntries]
        cases hks : (o.elements.getD i defaultOffset).toStr input with
        | none => rfl
        | some st =>
          simp only [hnext]
          exact congrArg _ (entriesGo_none _ _ _ _)
  | @cons i j l hi hnext hij ht ih =>
    intro vs v0 fuel hv hlen hfuel
    cases hv with
    | last hvi hvnext =>
      obtain ⟨lrest, hlrest⟩ := Thread.head_eq ht
      subst hlrest
      simp only [List.length_cons, List.length_nil] at hlen
      omega
    | @cons _ v1 vs2 hvi hvnext hvij hvt =>
      obtain ⟨lrest, hlrest⟩ := Thread.head_eq ht
      cases fuel with
      | zero =>
        subst hlrest
        simp at hfuel
      | succ f =>
        simp only [entriesGo, expectedEntries]
        cases hks : (o.elements.getD i defaultOffset).toStr input with
        | none => rfl
        | some st =>
          simp only [hnext, hvnext]
          have hlen2 : l.length = vs2.length := by
            simp only [List.length_cons] at hlen
            omega
          have hfuel2 : l.length ≤ f := by
            simp only [List.length_cons] at hfuel
            omega
          exact congrArg _ (ih vs2 v1 f hvt hlen2 hfuel2)


theorem c7_entries_lockstep :
    (∀ (m : Map) (k0 : Nat) (ks vs : List Nat),
      m.startFromOffset = some k0 →
      Thread m.offsets.elements k0 ks →
      Thread m.offsets.elements (k0 + 1) vs →
      ks.length = vs.length →
      m.entries = expectedEntries m.input m.offsets.elements ks vs) ∧
    (∀ m : Map, m.startFromOffset = Option.none → m.entries = []) ∧
    (∀ (input : List Nat) (tbl : List Offset) (ks vs : List Nat),
      ks.length = vs.length →
      (∀ k ∈ ks, ∃ sl esc, (tbl.getD k defaultOffset).kind = OffsetKind.str sl esc) →
      (expectedEntries input tbl ks vs).length = ks.length) := by
  refine ⟨?_, ?_, ?_⟩
  · intro m k0 ks vs hstart hk hv hlen
    unfold Map.entries
    rw [hstart]
    exact entriesGo_spec m.input m.offsets ks k0 hk vs (k0 + 1)
      (m.offsets.elements.length + 1) hv hlen
      (by have := hk.length_le; omega)
  · intro m hstart
    unfold Map.entries
    rw [hstart]
  · intro input tbl ks
    induction ks with
    | nil =>
      intro vs hlen hstr
      rfl
    | cons k ks2 ih =>
      intro vs hlen hstr
      cases vs with
      | nil => simp at hlen
      | cons v vs2 =>
        obtain ⟨sl, esc, hsk⟩ := hstr k (List.mem_cons_self _ _)
        simp only [expectedEntries]
        rw [show (tbl.getD k defaultOffset).toStr input = some ⟨sl.bytes input, esc⟩ by
          unfold Offset.toStr
          rw [hsk]]
        simp only [List.length_cons]
        rw [ih vs2 (by simpa using hlen) (fun k2 hk2 => hstr k2 (List.mem_cons_of_mem _ hk2))]

theorem c7_entries_lockstep_witness :
    (scanFallback [0x7B, 0x22, 0x61, 0x22, 0x3A, 0x31, 0x2C, 0x22, 0x62, 0x22, 0x3A,
        0x32, 0x7D]).asMap.entries =
      [(⟨[0x61], false⟩, Kind.num [0x31]), (⟨[0x62], false⟩, Kind.num [0x32])] := by
  have h := c7_entries_lockstep.1
    (scanFallback [0x7B, 0x22, 0x61, 0x22, 0x3A, 0x31, 0x2C, 0x22, 0x62, 0x22, 0x3A,
      0x32, 0x7D]).asMap 0 [0, 2] [1, 3] (by decide)
    (Thread.cons (i := 0) (j := 2) (by decide) (by decide) (by decide)
      (Thread.last (by decide) (by decide)))
    (Thread.cons (i := 1) (j := 3) (by decide) (by decide) (by decide)
      (Thread.last (by decide) (by decide)))
    rfl
  exact h.trans (by decide)


/-! ### C8 — surrogate-pair combination in the unescaper -/



namespace Unescape

theorem flushHere_input (i : ScanFnInput) : i.flushHere.input = i.input := rfl

theorem flushHere_currOffset (i : ScanFnInput) : i.flushHere.currOffset = i.currOffset := rfl

theorem flushHere_unescaped (i : ScanFnInput) :
    i.flushHere.unescaped = (flush i.input i.currOffset i.scan i.unescaped).2 := rfl

theorem flush_fst_escape (input : List Nat) (t : Nat) (s : Scan) (u : Unescaped) :
    (flush input t s u).1.escape = s.escape := by
  unfold flush
  split <;> rfl

theorem flush_fst_firstSurrogate (input : List Nat) (t : Nat) (s : Scan) (u : Unescaped) :
    (flush input t s u).1.firstSurrogate = s.firstSurrogate := by
  unfold flush
  split <;> rfl

theorem flushHere_scan_escape (i : ScanFnInput) : i.flushHere.scan.escape = i.scan.escape := by
  show (flush i.input i.currOffset i.scan i.unescaped).1.escape = i.scan.escape
  exact flush_fst_escape _ _ _ _

theorem flushHere_scan_firstSurrogate (i : ScanFnInput) :
    i.flushHere.scan.firstSurrogate = i.scan.firstSurrogate := by
  show (flush i.input i.currOffset i.scan i.unescaped).1.firstSurrogate = i.scan.firstSurrogate
  exact flush_fst_firstSurrogate _ _ _ _

theorem flush_snd_congr (input : List Nat) (t : Nat) (s s2 : Scan) (u : Unescaped)
    (h : s.start = s2.start) :
    (flush input t s u).2 = (flush input t s2 u).2 := by
  unfold flush
  rw [h]
  split <;> rfl

end Unescape

theorem tryFromUtf16SurrogatePair_eq (high low : Nat) :
    tryFromUtf16SurrogatePair high low =
      (if 0xD800 ≤ high ∧ 0xDC00 ≤ low ∧
          0x10000 + (high - 0xD800) * 0x400 + (low - 0xDC00) ≤ 0x10FFFF then
        some (0x10000 + (high - 0xD800) * 0x400 + (low - 0xDC00))
      else Option.none) := by
  unfold tryFromUtf16SurrogatePair
  simp only [Bool.or_eq_true, Bool.and_eq_true, Bool.not_eq_true', Bool.and_eq_false_iff,
    decide_eq_true_eq, decide_eq_false_iff_not]
  split_ifs with h1 h2 h3
  · omega
  · rfl
  · simp only [Option.some.injEq]
    omega
  · omega
  · omega
  · rfl

theorem c8_surrogate_pair (input : List Nat) (p : Nat) (s : Unescape.Scan)
    (u : Unescape.Unescaped) (high low : Nat)
    (hesc : s.escape = false)
    (hsur : s.firstSurrogate = some high)
    (hu : input.getD (p + 1) 0 = 0x75)
    (hbound : p + 2 + 4 ≤ input.length)
    (hhex : Unescape.parseHexU16 ((input.drop (p + 2)).take 4) = some low) :
    (Unescape.interestUnescape ⟨input, p, s, u⟩).scan.firstSurrogate = Option.none ∧
    (Unescape.interestUnescape ⟨input, p, s, u⟩).unescaped.buf =
      (Unescape.flush input p s u).2.buf ++
        (if 0xD800 ≤ high ∧ 0xDC00 ≤ low ∧
            0x10000 + (high - 0xD800) * 0x400 + (low - 0xDC00) ≤ 0x10FFFF then
          utf8EncodeChar (0x10000 + (high - 0xD800) * 0x400 + (low - 0xDC00))
        else []) := by
  unfold Unescape.interestUnescape
  simp only [hesc, Bool.false_eq_true, if_false, Unescape.flushHere_input,
    Unescape.flushHere_currOffset, hu]
  norm_num
  rw [if_pos (show p + 1 + 1 + 4 ≤ input.length by omega)]
  have hhex2 : Unescape.parseHexU16 (List.take 4 (List.drop (p + 1 + 1) input)) = some low :=
    hhex
  simp only [hhex2, Unescape.flushHere_scan_firstSurrogate, hsur,
    tryFromUtf16SurrogatePair_eq]
  split
  · rename_i prev heq
    by_cases hcond : 0xD800 ≤ high ∧ 0xDC00 ≤ low ∧
        0x10000 + (high - 0xD800) * 0x400 + (low - 0xDC00) ≤ 0x10FFFF
    · rw [if_pos hcond] at heq
      injection heq with hprev
      subst hprev
      refine ⟨rfl, ?_⟩
      rw [if_pos hcond]
      show (Unescape.flush input p
          ⟨s.inputOffset, s.start, true, some high⟩ u).2.buf ++
          utf8EncodeChar (0x10000 + (high - 0xD800) * 0x400 + (low - 0xDC00)) = _
      rw [Unescape.flush_snd_congr input p ⟨s.inputOffset, s.start, true, some high⟩ s u rfl]
    · rw [if_neg hcond] at heq
      cases heq
  · rename_i heq
    by_cases hcond : 0xD800 ≤ high ∧ 0xDC00 ≤ low ∧
        0x10000 + (high - 0xD800) * 0x400 + (low - 0xDC00) ≤ 0x10FFFF
    · rw [if_pos hcond] at heq
      cases heq
    · refine ⟨rfl, ?_⟩
      rw [if_neg hcond, List.append_nil]
      show (Unescape.flush input p
          ⟨s.inputOffset, s.start, true, some high⟩ u).2.buf = _
      rw [Unescape.flush_snd_congr input p ⟨s.inputOffset, s.start, true, some high⟩ s u rfl]


/-- Witness for C8: the pair `\ud83d\ude04` decodes to U+1F604 and is
emitted as the UTF-8 bytes `F0 9F 98 84`, both through the single
action and through the whole unescaper. -/
theorem c8_surrogate_pair_witness :
    (Unescape.interestUnescape ⟨[0x5C, 0x75, 0x64, 0x38, 0x33, 0x64, 0x5C, 0x75, 0x64,
        0x65, 0x30, 0x34], 6, ⟨0, 6, false, some 0xD83D⟩, ⟨[]⟩⟩).unescaped.buf =
      [0xF0, 0x9F, 0x98, 0x84] ∧
    Unescape.unescapeTrusted [0x5C, 0x75, 0x64, 0x38, 0x33, 0x64, 0x5C, 0x75, 0x64,
        0x65, 0x30, 0x34] = [0xF0, 0x9F, 0x98, 0x84] := by
  constructor
  · have h := c8_surrogate_pair
      [0x5C, 0x75, 0x64, 0x38, 0x33, 0x64, 0x5C, 0x75, 0x64, 0x65, 0x30, 0x34] 6
      ⟨0, 6, false, some 0xD83D⟩ ⟨[]⟩ 0xD83D 0xDE04 rfl rfl (by decide) (by decide)
      (by decide)
    exact h.2.trans (by decide)
  · decide

theorem utf8EncodeChar_length_le (c : Nat) : (utf8EncodeChar c).length ≤ 4 := by
  unfold utf8EncodeChar
  split_ifs <;> simp

theorem getD_ne_zero_lt (input : List Nat) (j : Nat) (h : input.getD j 0 ≠ 0) :
    j < input.length := by
  by_contra hc
  apply h
  rw [List.getD_eq_getElem?_getD, List.getElem?_eq_none (by omega)]
  rfl

namespace Unescape

theorem flush_fst_start (input : List Nat) (t : Nat) (s : Scan) (u : Unescaped) :
    (flush input t s u).1.start = t := by
  unfold flush
  split
  · rename_i h
    simp only [beq_iff_eq] at h
    exact h.symm
  · rfl

theorem flush_fst_inputOffset (input : List Nat) (t : Nat) (s : Scan) (u : Unescaped) :
    (flush input t s u).1.inputOffset = s.inputOffset := by
  unfold flush
  split <;> rfl

theorem flush_snd_buf_length (input : List Nat) (t : Nat) (s : Scan) (u : Unescaped) :
    ((flush input t s u).2).buf.length ≤ u.buf.length + (t - s.start) := by
  unfold flush
  split
  · simp
  · simp only [List.length_append, List.length_take, List.length_drop]
    omega

theorem flushHere_scan_start (i : ScanFnInput) :
    i.flushHere.scan.start = i.currOffset + 1 := by
  show (flush i.input i.currOffset i.scan i.unescaped).1.start + 1 = _
  rw [flush_fst_start]

theorem flushHere_scan_inputOffset (i : ScanFnInput) :
    i.flushHere.scan.inputOffset = i.scan.inputOffset := by
  show (flush i.input i.currOffset i.scan i.unescaped).1.inputOffset = _
  exact flush_fst_inputOffset _ _ _ _

theorem flushHere_buf_length (i : ScanFnInput) :
    i.flushHere.unescaped.buf.length ≤ i.unescaped.buf.length + (i.currOffset - i.scan.start) := by
  show ((flush i.input i.currOffset i.scan i.unescaped).2).buf.length ≤ _
  exact flush_snd_buf_length _ _ _ _

theorem pushUnescapedByte_buf (i : ScanFnInput) (b : Nat) :
    (i.pushUnescapedByte b).unescaped.buf = i.unescaped.buf ++ [b] := rfl

theorem pushUnescapedByte_start (i : ScanFnInput) (b : Nat) :
    (i.pushUnescapedByte b).scan.start = i.scan.start + 1 := rfl

theorem pushUnescapedByte_inputOffset (i : ScanFnInput) (b : Nat) :
    (i.pushUnescapedByte b).scan.inputOffset = i.scan.inputOffset := rfl

theorem pushUnescapedChar_inputOffset (i : ScanFnInput) (c : Nat) :
    (i.pushUnescapedChar c).scan.inputOffset = i.scan.inputOffset := rfl

theorem beginSurrogatePair_inputOffset (i : ScanFnInput) (first : Nat) :
    (i.beginSurrogatePair first).scan.inputOffset = i.scan.inputOffset := rfl

theorem pushUnescapedChar_buf (i : ScanFnInput) (c : Nat) :
    (i.pushUnescapedChar c).unescaped.buf = i.unescaped.buf ++ utf8EncodeChar c := rfl

theorem pushUnescapedChar_start (i : ScanFnInput) (c : Nat) :
    (i.pushUnescapedChar c).scan.start = i.scan.start + 4 := rfl

theorem beginSurrogatePair_start (i : ScanFnInput) (first : Nat) :
    (i.beginSurrogatePair first).scan.start = i.scan.start + 4 := rfl

theorem beginSurrogatePair_buf (i : ScanFnInput) (first : Nat) :
    (i.beginSurrogatePair first).unescaped.buf = i.unescaped.buf := rfl


theorem hexStep_none (b : Nat) : hexStep Option.none b = Option.none := by
  unfold hexStep
  cases hexDigitVal b <;> rfl

theorem hexStep_backslash (acc : Option Nat) : hexStep acc 0x5C = Option.none := by
  unfold hexStep
  cases acc <;> rfl

theorem foldl_hexStep_none (bs : List Nat) :
    bs.foldl hexStep Option.none = Option.none := by
  induction bs with
  | nil => rfl
  | cons b rest ih => rw [List.foldl_cons, hexStep_none, ih]

theorem foldl_hexStep_backslash (bs : List Nat) (acc : Option Nat) (h : 0x5C ∈ bs) :
    bs.foldl hexStep acc = Option.none := by
  induction bs generalizing acc with
  | nil => cases h
  | cons b rest ih =>
    rcases List.mem_cons.mp h with hb | hb
    · rw [List.foldl_cons, ← hb, hexStep_backslash]
      exact foldl_hexStep_none rest
    · rw [List.foldl_cons]
      exact ih _ hb

theorem hexDigitsVal_no_backslash (bs : List Nat) (v : Nat)
    (h : hexDigitsVal bs = some v) : 0x5C ∉ bs := by
  intro hmem
  unfold hexDigitsVal at h
  cases bs with
  | nil => cases hmem
  | cons b rest =>
    rw [foldl_hexStep_backslash _ _ hmem] at h
    cases h

theorem parseHexU16_no_backslash (bs : List Nat) (v : Nat)
    (h : parseHexU16 bs = some v) : ∀ b ∈ bs, b ≠ 0x5C := by
  intro b hb hbeq
  subst hbeq
  unfold parseHexU16 at h
  split at h
  · rename_i rest
    rcases List.mem_cons.mp hb with hc | hc
    · cases hc
    · exact hexDigitsVal_no_backslash rest v h hc
  · rename_i rest
    cases hv : hexDigitsVal rest with
    | none => rw [hv] at h; cases h
    | some w =>
      rcases List.mem_cons.mp hb with hc | hc
      · cases hc
      · exact hexDigitsVal_no_backslash rest w hv hc
  · exact hexDigitsVal_no_backslash bs v h hb

theorem getD_take_drop (input : List Nat) (a n k : Nat) (hk : k < n)
    (hb : a + n ≤ input.length) :
    ((input.drop a).take n).getD k 0 = input.getD (a + k) 0 := by
  rw [List.getD_eq_getElem?_getD, List.getD_eq_getElem?_getD, List.getElem?_take_of_lt hk,
    List.getElem?_drop]

theorem getD_mem_take_drop (input : List Nat) (a n k : Nat) (hk : k < n)
    (hb : a + n ≤ input.length) :
    input.getD (a + k) 0 ∈ (input.drop a).take n := by
  rw [← getD_take_drop input a n k hk hb]
  have hlen2 : k < ((input.drop a).take n).length := by
    simp only [List.length_take, List.length_drop]
    omega
  rw [List.getD_eq_getElem?_getD, List.getElem?_eq_getElem hlen2]
  exact List.getElem_mem _


theorem interestUnescape_inv (input : List Nat) (p : Nat) (s : Scan) (u : Unescaped)
    (hstart : s.start ≤ p) (hbuf : u.buf.length ≤ s.start) (hp : p < input.length) :
    ((interestUnescape ⟨input, p, s, u⟩).unescaped.buf.length ≤
        (interestUnescape ⟨input, p, s, u⟩).scan.start) ∧
      (interestUnescape ⟨input, p, s, u⟩).scan.start ≤ input.length ∧
      (∀ q, p + 1 ≤ q → q < (interestUnescape ⟨input, p, s, u⟩).scan.start →
        input.getD q 0 ≠ 0x5C) ∧
      (interestUnescape ⟨input, p, s, u⟩).scan.inputOffset = s.inputOffset := by
  unfold interestUnescape
  by_cases hescape : s.escape = true
  · simp only [hescape, if_true]
    simp only [pushUnescapedByte_buf, pushUnescapedByte_start, List.length_append,
      List.length_cons, List.length_nil]
    refine ⟨by omega, by omega, ?_, rfl⟩
    intro q h1 h2
    exfalso
    omega
  · rw [Bool.not_eq_true] at hescape
    have hfb := flushHere_buf_length ⟨input, p, ⟨s.inputOffset, s.start, true,
      s.firstSurrogate⟩, u⟩
    simp only [flushHere_scan_start] at hfb
    by_cases h1 : input.getD (p + 1) 0 = 0x6E
    · have hq1 : p + 1 < input.length := getD_ne_zero_lt input (p + 1) (by rw [h1]; decide)
      simp only [hescape, Bool.false_eq_true, if_false, flushHere_input, flushHere_currOffset,
        h1]
      norm_num
      simp only [pushUnescapedByte_buf, pushUnescapedByte_start, pushUnescapedByte_inputOffset,
        flushHere_scan_start, flushHere_scan_inputOffset, List.length_append, List.length_cons,
        List.length_nil]
      refine ⟨by omega, by omega, ?_, by trivial⟩
      intro q hq hq2
      have hqe : q = p + 1 := by omega
      subst hqe
      rw [← List.getD_eq_getElem?_getD, h1]
      decide
    by_cases h2 : input.getD (p + 1) 0 = 0x22
    · have hq1 : p + 1 < input.length := getD_ne_zero_lt input (p + 1) (by rw [h2]; decide)
      simp only [hescape, Bool.false_eq_true, if_false, flushHere_input, flushHere_currOffset,
        h2]
      norm_num
      simp only [pushUnescapedByte_buf, pushUnescapedByte_start, pushUnescapedByte_inputOffset,
        flushHere_scan_start, flushHere_scan_inputOffset, List.length_append, List.length_cons,
        List.length_nil]
      refine ⟨by omega, by omega, ?_, by trivial⟩
      intro q hq hq2
      have hqe : q = p + 1 := by omega
      subst hqe
      rw [← List.getD_eq_getElem?_getD, h2]
      decide
    by_cases h3 : input.getD (p + 1) 0 = 0x72
    · have hq1 : p + 1 < input.length := getD_ne_zero_lt input (p + 1) (by rw [h3]; decide)
      simp only [hescape, Bool.false_eq_true, if_false, flushHere_input, flushHere_currOffset,
        h3]
      norm_num
      simp only [pushUnescapedByte_buf, pushUnescapedByte_start, pushUnescapedByte_inputOffset,
        flushHere_scan_start, flushHere_scan_inputOffset, List.length_append, List.length_cons,
        List.length_nil]
      refine ⟨by omega, by omega, ?_, by trivial⟩
      intro q hq hq2
      have hqe : q = p + 1 := by omega
      subst hqe
      rw [← List.getD_eq_getElem?_getD, h3]
      decide
    by_cases h4 : input.getD (p + 1) 0 = 0x74
    · have hq1 : p + 1 < input.length := getD_ne_zero_lt input (p + 1) (by rw [h4]; decide)
      simp only [hescape, Bool.false_eq_true, if_false, flushHere_input, flushHere_currOffset,
        h4]
      norm_num
      simp only [pushUnescapedByte_buf, pushUnescapedByte_start, pushUnescapedByte_inputOffset,
        flushHere_scan_start, flushHere_scan_inputOffset, List.length_append, List.length_cons,
        List.length_nil]
      refine ⟨by omega, by omega, ?_, by trivial⟩
      intro q hq hq2
      have hqe : q = p + 1 := by omega
      subst hqe
      rw [← List.getD_eq_getElem?_getD, h4]
      decide
    by_cases h5 : input.getD (p + 1) 0 = 0x66
    · have hq1 : p + 1 < input.length := getD_ne_zero_lt input (p + 1) (by rw [h5]; decide)
      simp only [hescape, Bool.false_eq_true, if_false, flushHere_input, flushHere_currOffset,
        h5]
      norm_num
      simp only [pushUnescapedByte_buf, pushUnescapedByte_start, pushUnescapedByte_inputOffset,
        flushHere_scan_start, flushHere_scan_inputOffset, List.length_append, List.length_cons,
        List.length_nil]
      refine ⟨by omega, by omega, ?_, by trivial⟩
      intro q hq hq2
      have hqe : q = p + 1 := by omega
      subst hqe
      rw [← List.getD_eq_getElem?_getD, h5]
      decide
    by_cases h6 : input.getD (p + 1) 0 = 0x62
    · have hq1 : p + 1 < input.length := getD_ne_zero_lt input (p + 1) (by rw [h6]; decide)
      simp only [hescape, Bool.false_eq_true, if_false, flushHere_input, flushHere_currOffset,
        h6]
      norm_num
      simp only [pushUnescapedByte_buf, pushUnescapedByte_start, pushUnescapedByte_inputOffset,
        flushHere_scan_start, flushHere_scan_inputOffset, List.length_append, List.length_cons,
        List.length_nil]
      refine ⟨by omega, by omega, ?_, by trivial⟩
      intro q hq hq2
      have hqe : q = p + 1 := by omega
      subst hqe
      rw [← List.getD_eq_getElem?_getD, h6]
      decide
    by_cases h7 : input.getD (p + 1) 0 = 0x5C
    · simp only [hescape, Bool.false_eq_true, if_false, flushHere_input, flushHere_currOffset,
        h7]
      norm_num
      simp only [flushHere_scan_start, flushHere_scan_inputOffset]
      refine ⟨by omega, by omega, ?_, by trivial⟩
      intro q hq hq2
      exfalso
      omega
    by_cases h8 : input.getD (p + 1) 0 = 0x75
    · have hq1 : p + 1 < input.length := getD_ne_zero_lt input (p + 1) (by rw [h8]; decide)
      simp only [hescape, Bool.false_eq_true, if_false, flushHere_input, flushHere_currOffset,
        flushHere_scan_firstSurrogate, h8]
      norm_num
      split
      · rename_i hb6
        cases hparse : Unescape.parseHexU16 (List.take 4 (List.drop (p + 1 + 1) input)) with
        | none =>
          simp only [hparse]
          simp only [flushHere_scan_start, flushHere_scan_inputOffset]
          refine ⟨by omega, by omega, ?_, by trivial⟩
          intro q hq hq2
          have hqe : q = p + 1 := by omega
          subst hqe
          rw [← List.getD_eq_getElem?_getD, h8]
          decide
        | some code =>
          simp only [hparse]
          cases hfs : s.firstSurrogate with
          | some first =>
            simp only [hfs]
            have hfb2 := flushHere_buf_length ⟨input, p, ⟨s.inputOffset, s.start, true,
              some first⟩, u⟩
            simp only [flushHere_scan_start] at hfb2
            cases htf : tryFromUtf16SurrogatePair first code with
            | none =>
              simp only [htf]
              simp only [flushHere_scan_start, flushHere_scan_inputOffset]
              refine ⟨by omega, by omega, ?_, by trivial⟩
              intro q hq hq2
              have hqe : q = p + 1 := by omega
              subst hqe
              rw [← List.getD_eq_getElem?_getD, h8]
              decide
            | some c =>
              simp only [htf]
              simp only [pushUnescapedChar_buf, pushUnescapedChar_start,
                pushUnescapedChar_inputOffset, flushHere_scan_start, flushHere_scan_inputOffset,
                List.length_append]
              have hel := utf8EncodeChar_length_le c
              refine ⟨by omega, by omega, ?_, by trivial⟩
              intro q hq hq2
              rcases Nat.lt_or_ge q (p + 2) with hqlt | hqge
              · have hqe : q = p + 1 := by omega
                subst hqe
                rw [← List.getD_eq_getElem?_getD, h8]
                decide
              · have hk : q - (p + 2) < 4 := by omega
                have hmem := Unescape.getD_mem_take_drop input (p + 2) 4 (q - (p + 2)) hk (by omega)
                rw [show p + 2 + (q - (p + 2)) = q from by omega] at hmem
                rw [← List.getD_eq_getElem?_getD]
                exact Unescape.parseHexU16_no_backslash _ _ hparse _ hmem
          | none =>
            simp only [hfs]
            have hfb3 := flushHere_buf_length ⟨input, p, ⟨s.inputOffset, s.start, true,
              Option.none⟩, u⟩
            simp only [flushHere_scan_start] at hfb3
            split
            · simp only [pushUnescapedChar_buf, pushUnescapedChar_start,
                pushUnescapedChar_inputOffset, flushHere_scan_start, flushHere_scan_inputOffset,
                List.length_append]
              have hel := utf8EncodeChar_length_le code
              refine ⟨by omega, by omega, ?_, by trivial⟩
              intro q hq hq2
              rcases Nat.lt_or_ge q (p + 2) with hqlt | hqge
              · have hqe : q = p + 1 := by omega
                subst hqe
                rw [← List.getD_eq_getElem?_getD, h8]
                decide
              · have hk : q - (p + 2) < 4 := by omega
                have hmem := Unescape.getD_mem_take_drop input (p + 2) 4 (q - (p + 2)) hk (by omega)
                rw [show p + 2 + (q - (p + 2)) = q from by omega] at hmem
                rw [← List.getD_eq_getElem?_getD]
                exact Unescape.parseHexU16_no_backslash _ _ hparse _ hmem
            · simp only [beginSurrogatePair_buf, beginSurrogatePair_start,
                beginSurrogatePair_inputOffset, flushHere_scan_start, flushHere_scan_inputOffset]
              refine ⟨by omega, by omega, ?_, by trivial⟩
              intro q hq hq2
              rcases Nat.lt_or_ge q (p + 2) with hqlt | hqge
              · have hqe : q = p + 1 := by omega
                subst hqe
                rw [← List.getD_eq_getElem?_getD, h8]
                decide
              · have hk : q - (p + 2) < 4 := by omega
                have hmem := Unescape.getD_mem_take_drop input (p + 2) 4 (q - (p + 2)) hk (by omega)
                rw [show p + 2 + (q - (p + 2)) = q from by omega] at hmem
                rw [← List.getD_eq_getElem?_getD]
                exact Unescape.parseHexU16_no_backslash _ _ hparse _ hmem
      · rename_i hb6n
        simp only [flushHere_scan_start, flushHere_scan_inputOffset]
        refine ⟨by omega, by omega, ?_, by trivial⟩
        intro q hq hq2
        have hqe : q = p + 1 := by omega
        subst hqe
        rw [← List.getD_eq_getElem?_getD, h8]
        decide
    · have c1 : (input.getD (p + 1) 0 == 0x6E) = false := beq_eq_false_iff_ne.mpr h1
      have c2 : (input.getD (p + 1) 0 == 0x22) = false := beq_eq_false_iff_ne.mpr h2
      have c3 : (input.getD (p + 1) 0 == 0x72) = false := beq_eq_false_iff_ne.mpr h3
      have c4 : (input.getD (p + 1) 0 == 0x74) = false := beq_eq_false_iff_ne.mpr h4
      have c5 : (input.getD (p + 1) 0 == 0x66) = false := beq_eq_false_iff_ne.mpr h5
      have c6 : (input.getD (p + 1) 0 == 0x62) = false := beq_eq_false_iff_ne.mpr h6
      have c7 : (input.getD (p + 1) 0 == 0x5C) = false := beq_eq_false_iff_ne.mpr h7
      have c8 : (input.getD (p + 1) 0 == 0x75) = false := beq_eq_false_iff_ne.mpr h8
      simp only [hescape, Bool.not_false, Bool.false_eq_true, if_false, flushHere_input,
        flushHere_currOffset, c1, c2, c3, c4, c5, c6, c7, c8]
      simp only [flushHere_scan_start, flushHere_scan_inputOffset]
      refine ⟨by omega, by omega, ?_, by trivial⟩
      intro q hq hq2
      exfalso
      omega

/-- One loop step preserves the invariant and advances the cursor by
exactly one byte. -/
theorem unescapeStep_inv (input : List Nat) (s : Scan) (u : Unescaped)
    (hinv : SquirrelJson.Unescape.LoopInv input s u) (hlt : s.inputOffset < input.length) :
    SquirrelJson.Unescape.LoopInv input (unescapeStep input s u).1 (unescapeStep input s u).2 ∧
      (unescapeStep input s u).1.inputOffset = s.inputOffset + 1 := by
  obtain ⟨hbuf, hstartlen, hnb⟩ := hinv
  unfold unescapeStep SquirrelJson.Unescape.LoopInv
  by_cases hc : input.getD s.inputOffset 0 = 0x5C
  · have hstart : s.start ≤ s.inputOffset := by
      by_contra hgt
      exact hnb s.inputOffset le_rfl (by omega) hc
    obtain ⟨h1, h2, h3, h4⟩ := interestUnescape_inv input s.inputOffset s u hstart hbuf hlt
    simp only [hc]
    norm_num
    refine ⟨⟨h1, h2, ?_⟩, by rw [h4]⟩
    intro q hq hq2
    rw [← List.getD_eq_getElem?_getD]
    exact h3 q (by omega) hq2
  · have hc2 : (input.getD s.inputOffset 0 == 0x5C) = false := beq_eq_false_iff_ne.mpr hc
    simp only [hc2, Bool.false_eq_true, if_false]
    exact ⟨⟨hbuf, hstartlen, fun q hq hq2 => hnb q (by omega) hq2⟩, by trivial⟩

/-- The fuelled loop preserves the invariant. -/
theorem unescapeLoop_inv (input : List Nat) (fuel : Nat) : ∀ (s : Scan) (u : Unescaped),
    SquirrelJson.Unescape.LoopInv input s u →
    SquirrelJson.Unescape.LoopInv input (unescapeLoop input fuel s u).1
      (unescapeLoop input fuel s u).2 := by
  induction fuel with
  | zero => intro s u h; exact h
  | succ n ih =>
    intro s u h
    unfold unescapeLoop
    split
    · rename_i hlt
      exact ih _ _ (unescapeStep_inv input s u h hlt).1
    · exact h

end Unescape

/-- **C10.** For every input (in particular every one satisfying the
unescaper's contract of not ending with an unescaped backslash), the
byte length of `unescape_trusted`'s output is at most the byte length
of the input: every escape's replacement is no longer than the bytes it
consumes, so a buffer pre-sized to the input length suffices and the
capacity assertion in `flush` always holds. -/
theorem c10_unescape_bound (input : List Nat)
    (hpre : endsWithUnescapedBackslash input = false) :
    (Unescape.unescapeTrusted input).length ≤ input.length := by
  have h0 : Unescape.LoopInv input ⟨0, 0, false, Option.none⟩ ⟨[]⟩ := by
    refine ⟨by simp, by simp, ?_⟩
    intro q hq hq2
    have hq2x : q < 0 := hq2
    omega
  obtain ⟨hbuf, hstartlen, hnb⟩ :=
    Unescape.unescapeLoop_inv input input.length ⟨0, 0, false, Option.none⟩ ⟨[]⟩ h0
  show (Unescape.flush input input.length
      (Unescape.unescapeLoop input input.length ⟨0, 0, false, Option.none⟩ ⟨[]⟩).1
      (Unescape.unescapeLoop input input.length ⟨0, 0, false, Option.none⟩ ⟨[]⟩).2).2.buf.length ≤
    input.length
  exact le_trans (Unescape.flush_snd_buf_length input input.length
    (Unescape.unescapeLoop input input.length ⟨0, 0, false, Option.none⟩ ⟨[]⟩).1
    (Unescape.unescapeLoop input input.length ⟨0, 0, false, Option.none⟩ ⟨[]⟩).2) (by omega)

/-- Witness: a concrete escaped input within the contract, to which the
bound applies. -/
theorem c10_unescape_bound_witness :
    endsWithUnescapedBackslash [0x61, 0x5C, 0x6E, 0x62] = false ∧
      (Unescape.unescapeTrusted [0x61, 0x5C, 0x6E, 0x62]).length ≤
        ([0x61, 0x5C, 0x6E, 0x62] : List Nat).length :=
  ⟨by decide, c10_unescape_bound [0x61, 0x5C, 0x6E, 0x62] (by decide)⟩

end SquirrelJson
